import Mathlib

/-!
Verification of the core of the mold linker (ICF pass and x86-64
relocation engine) against its natural-language specification.

The definitions below are a shallow embedding of the C++ sources:
`icf.cc` (ICF pass), `input_sections.cc` (relocation scan/apply) and
`object_file.cc` (`is_c_identifier`).  Machine integers are modelled as
`Nat`/`Int` with explicit reductions modulo `2 ^ w` where the C++ code
truncates.
-/

namespace Mold

/-! ## ELF constants (values from the ELF specification). -/

def SHF_WRITE : Nat := 1
def SHF_ALLOC : Nat := 2
def SHF_EXECINSTR : Nat := 4

def SHT_PROGBITS : Nat := 1
def SHT_NOBITS : Nat := 8
def SHT_INIT_ARRAY : Nat := 14
def SHT_FINI_ARRAY : Nat := 15

def STT_FUNC : Nat := 2
def STT_GNU_IFUNC : Nat := 10

/-! x86-64 relocation type codes. -/

def R_X86_64_NONE : Nat := 0
def R_X86_64_64 : Nat := 1
def R_X86_64_PC32 : Nat := 2
def R_X86_64_GOT32 : Nat := 3
def R_X86_64_PLT32 : Nat := 4
def R_X86_64_RELATIVE : Nat := 8
def R_X86_64_GOTPCREL : Nat := 9
def R_X86_64_32 : Nat := 10
def R_X86_64_32S : Nat := 11
def R_X86_64_16 : Nat := 12
def R_X86_64_PC16 : Nat := 13
def R_X86_64_8 : Nat := 14
def R_X86_64_PC8 : Nat := 15
def R_X86_64_DTPOFF64 : Nat := 17
def R_X86_64_TPOFF64 : Nat := 18
def R_X86_64_TLSGD : Nat := 19
def R_X86_64_TLSLD : Nat := 20
def R_X86_64_DTPOFF32 : Nat := 21
def R_X86_64_GOTTPOFF : Nat := 22
def R_X86_64_TPOFF32 : Nat := 23
def R_X86_64_PC64 : Nat := 24
def R_X86_64_GOTPC32 : Nat := 26
def R_X86_64_GOTPCRELX : Nat := 41
def R_X86_64_REX_GOTPCRELX : Nat := 42

/-- Modelled from the spec: the per-symbol demand bit-flags set by the
relocation classifier (`NEEDS_*` in `mold.h`, which is not part of the
given sources).  Only their distinctness matters. -/
def NEEDS_GOT : Nat := 1
def NEEDS_PLT : Nat := 2
def NEEDS_GOTTPOFF : Nat := 4
def NEEDS_TLSGD : Nat := 8
def NEEDS_TLSLD : Nat := 16
def NEEDS_COPYREL : Nat := 32
def NEEDS_DYNSYM : Nat := 64

/-- The abstract relocation kinds assigned by `scan_relocations` and
consumed by `apply_reloc_alloc` (`enum RelType` in `mold.h`; `R_NONE`
is the zero value that `rel_types.resize` default-initializes to). -/
inductive RelKind where
  | R_NONE
  | R_ABS
  | R_ABS_DYN
  | R_DYN
  | R_PC
  | R_GOT
  | R_GOTPC
  | R_GOTPCREL
  | R_TLSGD
  | R_TLSGD_RELAX_LE
  | R_TLSLD
  | R_TLSLD_RELAX_LE
  | R_DTPOFF
  | R_TPOFF
  | R_GOTTPOFF
deriving DecidableEq, Repr

/-! ## Data model -/

/-- A piece of a mergeable section (`SectionFragment`): its bytes and
its runtime address as assigned by layout. -/
structure Fragment where
  data : List Nat := []
  addr : Int := 0
deriving DecidableEq, Repr

/-- `SectionFragmentRef`: {fragment, addend}. -/
structure FragRef where
  frag : Fragment := {}
  addend : Int := 0
deriving DecidableEq, Repr

/-- The slice of `Symbol` that the core reads.  Booleans stand for the
pointer-null tests the C++ performs (`sym.file`, `sym.input_section`,
`sym.frag`), `frag` carries the fragment when present, and the address
fields are the layout results consumed by the applier. -/
structure Symbol where
  has_file : Bool := true
  is_placeholder : Bool := false
  is_imported : Bool := false
  is_relative : Bool := false
  st_type : Nat := 0
  value : Int := 0
  frag : Option Fragment := none
  has_input_section : Bool := false
  input_section_icf_idx : Nat := 0
  addr : Int := 0
  plt_idx : Int := -1
  plt_addr : Int := 0
  got_entry_addr : Int := 0
  tlsgd_addr : Int := 0
  gottpoff_addr : Int := 0
  dynsym_idx : Nat := 0
deriving Repr

def defaultSym : Symbol := {}

/-- `ElfRela`: one relocation record. -/
structure Rel where
  r_offset : Nat := 0
  r_type : Nat := 0
  r_sym : Nat := 0
  r_addend : Int := 0
deriving DecidableEq, Repr

/-- An `.eh_frame` relocation (`EhReloc`). -/
structure EhReloc where
  sym : Symbol := {}
  type : Nat := 0
  offset : Nat := 0
  addend : Int := 0
deriving Repr

/-- A `.eh_frame` FDE slice (`FdeRecord`). -/
structure FdeRecord where
  contents : List Nat := []
  rels : List EhReloc := []
deriving Repr

/-- ELF section header fields that the core reads. -/
structure Shdr where
  sh_flags : Nat := 0
  sh_type : Nat := 0
  sh_size : Nat := 0
deriving DecidableEq, Repr

/-- The slice of `InputSection` that the core reads.  `contents` is
`get_contents()`; `has_fragments`/`rel_fragments` are the parallel
fragment-reference stream consumed in lockstep with set bits. -/
structure InputSection where
  shdr : Shdr := {}
  name : List Char := []
  contents : List Nat := []
  fdes : List FdeRecord := []
  rels : List Rel := []
  has_fragments : List Bool := []
  rel_fragments : List FragRef := []
deriving Repr

/-! ## `is_c_identifier` (object_file.cc) and `is_eligible` (icf.cc) -/

/-- C `isalpha` in the C locale, over ASCII. -/
def isalpha (c : Char) : Bool :=
  (('A' ≤ c && c ≤ 'Z') || ('a' ≤ c && c ≤ 'z'))

/-- C `isalnum` in the C locale, over ASCII. -/
def isalnum (c : Char) : Bool :=
  isalpha c || ('0' ≤ c && c ≤ '9')

/-- `is_c_identifier` from `object_file.cc`: empty names are rejected,
the first character must be a letter or `_`, the rest letters, digits
or `_`. -/
def is_c_identifier (name : List Char) : Bool :=
  match name with
  | [] => false
  | c :: cs => (isalpha c || c = '_') && cs.all (fun d => isalnum d || d = '_')

/-- `is_eligible` from `icf.cc`: decides whether a section participates
in ICF. -/
def is_eligible (isec : InputSection) : Bool :=
  let is_alloc := isec.shdr.sh_flags &&& SHF_ALLOC ≠ 0
  let is_executable := isec.shdr.sh_flags &&& SHF_EXECINSTR ≠ 0
  let is_writable := isec.shdr.sh_flags &&& SHF_WRITE ≠ 0
  let is_bss := isec.shdr.sh_type = SHT_NOBITS
  let is_init := isec.shdr.sh_type = SHT_INIT_ARRAY || isec.name = ".init".toList
  let is_fini := isec.shdr.sh_type = SHT_FINI_ARRAY || isec.name = ".fini".toList
  let is_enumerable := is_c_identifier isec.name
  is_alloc && is_executable && !is_writable && !is_bss &&
    !is_init && !is_fini && !is_enumerable

/-- A concrete zero-size section: allocated, executable, read-only
PROGBITS named `.text`. -/
def zeroSizeSec : InputSection :=
  { shdr := { sh_flags := SHF_ALLOC + SHF_EXECINSTR
              sh_type := SHT_PROGBITS
              sh_size := 0 }
    name := ".text".toList }

/-! ## Machine-integer helpers -/

/-- The `u64` value of a mathematical integer (C unsigned wraparound). -/
def toU64 (v : Int) : Nat := (v.emod (2 ^ 64)).toNat

/-- Reinterpret a `u64` value as an `i64` (two's complement). -/
def toI64 (v : Int) : Int :=
  let m := v.emod (2 ^ 64)
  if m < 2 ^ 63 then m else m - 2 ^ 64

/-- The `u64` result of truncating a `u64` to `w` bits and
sign-extending back (C `(u64)(iW)val`). -/
def sextU64 (w : Nat) (val : Nat) : Nat :=
  let m := val % 2 ^ w
  if m < 2 ^ (w - 1) then m else 2 ^ 64 - 2 ^ w + m

/-- Little-endian byte encoding: `w` bytes of `n` (truncating). -/
def leBytes : Nat → Nat → List Nat
  | _, 0 => []
  | n, w + 1 => (n % 256) :: leBytes (n / 256) w

/-- Little-endian byte decoding (spec-side inverse of `leBytes`). -/
def decodeLE : List Nat → Nat
  | [] => 0
  | b :: bs => b + 256 * decodeLE bs

/-! ## `overflow_check` and `write_val` (input_sections.cc) -/

/-- `overflow_check`: returns `true` iff the C++ code reports an
out-of-range relocation value.  `val` is the computed `u64` value. -/
def overflow_check (r_type : Nat) (val : Nat) : Bool :=
  if r_type = R_X86_64_8 then val ≠ val % 2 ^ 8
  else if r_type = R_X86_64_PC8 then val ≠ sextU64 8 val
  else if r_type = R_X86_64_16 then val ≠ val % 2 ^ 16
  else if r_type = R_X86_64_PC16 then val ≠ sextU64 16 val
  else if r_type = R_X86_64_32 then val ≠ val % 2 ^ 32
  else if r_type = R_X86_64_32S ∨ r_type = R_X86_64_PC32 ∨
          r_type = R_X86_64_GOT32 ∨ r_type = R_X86_64_GOTPC32 ∨
          r_type = R_X86_64_GOTPCREL ∨ r_type = R_X86_64_GOTPCRELX ∨
          r_type = R_X86_64_REX_GOTPCRELX ∨ r_type = R_X86_64_PLT32 ∨
          r_type = R_X86_64_TLSGD ∨ r_type = R_X86_64_TLSLD ∨
          r_type = R_X86_64_TPOFF32 ∨ r_type = R_X86_64_DTPOFF32 ∨
          r_type = R_X86_64_GOTTPOFF then val ≠ sextU64 32 val
  else false

/-- One patch of the output buffer: `addr` is the byte offset of the
write relative to the section's base in the output image, `bytes` the
bytes stored there in increasing address order. -/
structure Write where
  addr : Int
  bytes : List Nat
deriving DecidableEq, Repr

/-- `write_val`: the store performed for one relocation, as the list
of emitted buffer patches (empty for `R_X86_64_NONE`).  The value is
truncated to the write width exactly as the C++ pointer stores do. -/
def write_val (r_type : Nat) (loc : Int) (val : Nat) : List Write :=
  if r_type = R_X86_64_NONE then []
  else if r_type = R_X86_64_8 ∨ r_type = R_X86_64_PC8 then
    [⟨loc, leBytes val 1⟩]
  else if r_type = R_X86_64_16 ∨ r_type = R_X86_64_PC16 then
    [⟨loc, leBytes val 2⟩]
  else if r_type = R_X86_64_32 ∨ r_type = R_X86_64_32S ∨
          r_type = R_X86_64_PC32 ∨ r_type = R_X86_64_GOT32 ∨
          r_type = R_X86_64_GOTPC32 ∨ r_type = R_X86_64_GOTPCREL ∨
          r_type = R_X86_64_GOTPCRELX ∨ r_type = R_X86_64_REX_GOTPCRELX ∨
          r_type = R_X86_64_PLT32 ∨ r_type = R_X86_64_TLSGD ∨
          r_type = R_X86_64_TLSLD ∨ r_type = R_X86_64_TPOFF32 ∨
          r_type = R_X86_64_DTPOFF32 ∨ r_type = R_X86_64_GOTTPOFF then
    [⟨loc, leBytes val 4⟩]
  else if r_type = R_X86_64_64 ∨ r_type = R_X86_64_PC64 ∨
          r_type = R_X86_64_TPOFF64 ∨ r_type = R_X86_64_DTPOFF64 then
    [⟨loc, leBytes val 8⟩]
  else []

/-! ## `scan_relocations` (input_sections.cc) -/

/-- Linker configuration consumed by the core. -/
structure Config where
  pie : Bool := false
  relax : Bool := false
deriving Repr

/-- Result of scanning the relocations of one section: the populated
`rel_types` array, the number of `num_dynrel` increments, the
`sym.flags |=` events in program order as (symbol index, flag) pairs,
and the number of reported errors. -/
structure ScanResult where
  rel_types : List RelKind := []
  num_dynrel : Nat := 0
  flags : List (Nat × Nat) := []
  errors : Nat := 0
deriving Repr

/-- Prepend the contributions of one scanned relocation. -/
def ScanResult.cons (k : RelKind) (dyn : Nat) (fl : List (Nat × Nat))
    (err : Nat) (r : ScanResult) : ScanResult :=
  ⟨k :: r.rel_types, dyn + r.num_dynrel, fl ++ r.flags, err + r.errors⟩

/-- Prepend the contributions of one scanned relocation that consumed
the following relocation: the consumed slot keeps the `R_NONE` that
`rel_types.resize` default-initialized it to. -/
def ScanResult.cons2 (k : RelKind) (dyn : Nat) (fl : List (Nat × Nat))
    (err : Nat) (r : ScanResult) : ScanResult :=
  ⟨k :: .R_NONE :: r.rel_types, dyn + r.num_dynrel, fl ++ r.flags, err + r.errors⟩

/-- The action of the scanner's switch on one relocation: classify the
current `rel_types` slot, count a `num_dynrel` increment, demand
symbol flags, report errors — and in the `two` case also consume the
following relocation. -/
inductive ScanAction where
  | one (k : RelKind) (dyn : Nat) (fl : List (Nat × Nat)) (err : Nat)
  | two (k : RelKind) (dyn : Nat) (fl : List (Nat × Nat)) (err : Nat)
deriving DecidableEq, Repr

/-- The switch body of `InputSection::scan_relocations` for one
relocation.  `next?` is the following relocation when present (it is
consulted by the TLSGD/TLSLD cases); `is_readonly` is
`!(shdr.sh_flags & SHF_WRITE)`. -/
def scanStep (cfg : Config) (is_readonly : Bool) (syms : List Symbol)
    (rel : Rel) (next? : Option Rel) : ScanAction :=
  let sym := syms.getD rel.r_sym defaultSym
  let is_code := sym.st_type == STT_FUNC
  if !sym.has_file || sym.is_placeholder then
    -- "undefined symbol" error; `continue` leaves rel_types[i] = R_NONE
    .one .R_NONE 0 [] 1
  else
    match rel.r_type with
    | 0 =>  -- R_X86_64_NONE
      .one .R_NONE 0 [] 0
    | 14 | 12 | 10 | 11 =>  -- R_X86_64_8 / 16 / 32 / 32S
      let err := if cfg.pie && sym.is_relative then 1 else 0
      let fl := if sym.is_imported then
          [(rel.r_sym, if is_code then NEEDS_PLT else NEEDS_COPYREL)] else []
      .one .R_ABS 0 fl err
    | 1 =>  -- R_X86_64_64
      if cfg.pie then
        if sym.is_imported then
          .one .R_DYN 1 [(rel.r_sym, NEEDS_DYNSYM)]
            (if is_readonly then 1 else 0)
        else if sym.is_relative then
          .one .R_ABS_DYN 1 [] (if is_readonly then 1 else 0)
        else
          .one .R_ABS 0 [] 0
      else
        let fl := if sym.is_imported then
            [(rel.r_sym, if is_code then NEEDS_PLT else NEEDS_COPYREL)] else []
        .one .R_ABS 0 fl 0
    | 15 | 13 | 2 | 24 =>  -- R_X86_64_PC8 / PC16 / PC32 / PC64
      let fl := if sym.is_imported then
          [(rel.r_sym, if is_code then NEEDS_PLT else NEEDS_COPYREL)] else []
      .one .R_PC 0 fl 0
    | 3 =>  -- R_X86_64_GOT32
      .one .R_GOT 0 [(rel.r_sym, NEEDS_GOT)] 0
    | 26 =>  -- R_X86_64_GOTPC32
      .one .R_GOTPC 0 [(rel.r_sym, NEEDS_GOT)] 0
    | 9 | 41 | 42 =>  -- R_X86_64_GOTPCREL / GOTPCRELX / REX_GOTPCRELX
      .one .R_GOTPCREL 0 [(rel.r_sym, NEEDS_GOT)] 0
    | 4 =>  -- R_X86_64_PLT32
      let fl := if sym.is_imported || sym.st_type == STT_GNU_IFUNC then
          [(rel.r_sym, NEEDS_PLT)] else []
      .one .R_PC 0 fl 0
    | 19 =>  -- R_X86_64_TLSGD
      let err1 := match next? with
        | none => 1
        | some next => if next.r_type == R_X86_64_PLT32 then 0 else 1
      if cfg.relax && !sym.is_imported then
        .two .R_TLSGD_RELAX_LE 0 [] err1
      else
        .one .R_TLSGD 0 [(rel.r_sym, NEEDS_TLSGD), (rel.r_sym, NEEDS_DYNSYM)] err1
    | 20 =>  -- R_X86_64_TLSLD
      let err1 := match next? with
        | none => 1
        | some next => if next.r_type == R_X86_64_PLT32 then 0 else 1
      let err2 := err1 + (if sym.is_imported then 1 else 0)
      if cfg.relax then
        .two .R_TLSLD_RELAX_LE 0 [] err2
      else
        .one .R_TLSLD 0 [(rel.r_sym, NEEDS_TLSLD)] err2
    | 21 | 17 =>  -- R_X86_64_DTPOFF32 / DTPOFF64
      let err := if sym.is_imported then 1 else 0
      .one (if cfg.relax then .R_TPOFF else .R_DTPOFF) 0 [] err
    | 23 | 18 =>  -- R_X86_64_TPOFF32 / TPOFF64
      .one .R_TPOFF 0 [] 0
    | 22 =>  -- R_X86_64_GOTTPOFF
      .one .R_GOTTPOFF 0 [(rel.r_sym, NEEDS_GOTTPOFF)] 0
    | _ =>
      -- unknown relocation: error, rel_types[i] keeps its default
      .one .R_NONE 0 [] 1

/-- The scan loop of `InputSection::scan_relocations`: walk `rels`,
performing the switch on each relocation; a `two` action also consumes
the following relocation, whose `rel_types` slot keeps the `R_NONE`
that `rel_types.resize` default-initialized it to. -/
def scanRels (cfg : Config) (is_readonly : Bool) (syms : List Symbol) :
    List Rel → ScanResult
  | [] => {}
  | rel :: rest =>
    match scanStep cfg is_readonly syms rel rest.head? with
    | .one k d fl e => .cons k d fl e (scanRels cfg is_readonly syms rest)
    | .two k d fl e =>
      match rest with
      | [] => ⟨[k], d, fl, e⟩
      | _ :: rest2 => .cons2 k d fl e (scanRels cfg is_readonly syms rest2)
termination_by rels => rels.length
decreasing_by all_goals simp_wf <;> omega

/-- `InputSection::scan_relocations`: non-ALLOC sections are not
scanned (`none`); otherwise record `reldyn_offset` from the file's
running `num_dynrel` and scan the relocations. -/
def scan_relocations (cfg : Config) (syms : List Symbol)
    (sec : InputSection) (file_num_dynrel : Nat) : Option (Nat × ScanResult) :=
  if sec.shdr.sh_flags &&& SHF_ALLOC == 0 then none
  else
    let reldyn_offset := file_num_dynrel * 24
    let is_readonly := sec.shdr.sh_flags &&& SHF_WRITE == 0
    some (reldyn_offset, scanRels cfg is_readonly syms sec.rels)

/-- Scanning all sections of one file in order, threading the file's
`num_dynrel` counter: returns the per-section scan results and the
final `num_dynrel`. -/
def scanFile (cfg : Config) (syms : List Symbol) :
    List InputSection → Nat → List (Option (Nat × ScanResult)) × Nat
  | [], nd => ([], nd)
  | sec :: secs, nd =>
    match scan_relocations cfg syms sec nd with
    | none =>
      let r := scanFile cfg syms secs nd
      (none :: r.1, r.2)
    | some s =>
      let r := scanFile cfg syms secs (nd + s.2.num_dynrel)
      (some s :: r.1, r.2)

/-! ## `apply_reloc_alloc` / `apply_reloc_nonalloc` (input_sections.cc) -/

/-- The layout results consumed by the relocation applier. -/
structure ApplyCtx where
  tls_begin : Int := 0
  tls_end : Int := 0
  got_addr : Int := 0
  tlsld_addr : Int := 0
  sec_addr : Int := 0
deriving Repr

/-- A dynamic relocation record emitted into `.rela.dyn`. -/
structure DynRel where
  r_offset : Int
  r_type : Nat
  r_sym : Nat
  r_addend : Int
deriving DecidableEq, Repr

/-- Result of applying the relocations of one section: the buffer
patches in program order, the `.rela.dyn` records in emission order,
and the number of reported errors. -/
structure ApplyResult where
  writes : List Write := []
  dynrels : List DynRel := []
  errors : Nat := 0
deriving Repr

/-- The instruction bytes installed by the TLSGD→LE relaxation
(`mov %fs:0, %rax; lea x@tpoff, %rax`). -/
def tlsgdInsn : List Nat :=
  [0x64, 0x48, 0x8b, 0x04, 0x25, 0, 0, 0, 0, 0x48, 0x8d, 0x80, 0, 0, 0, 0]

/-- The instruction bytes installed by the TLSLD→LE relaxation
(`mov %fs:0, %rax` with redundant prefixes). -/
def tlsldInsn : List Nat :=
  [0x66, 0x66, 0x66, 0x64, 0x48, 0x8b, 0x04, 0x25, 0, 0, 0, 0]

/-- The loop of `InputSection::apply_reloc_alloc`: walk `rels` with the
scanner's `rel_types` and the fragment-reference stream, emitting
buffer patches and `.rela.dyn` records.  Write addresses are relative
to the section's base `base`; the relaxation kinds skip the following
relocation without consulting its `has_fragments` bit. -/
def applyRelocAllocRels (ctx : ApplyCtx) (syms : List Symbol) :
    List Rel → List RelKind → List Bool → List FragRef → ApplyResult
  | [], _, _, _ => {}
  | rel :: rels, kinds, hf, frags =>
    let sym := syms.getD rel.r_sym defaultSym
    let loc : Int := rel.r_offset
    let ref : Option FragRef :=
      if hf.getD 0 false then some (frags.getD 0 {}) else none
    let frags2 := if hf.getD 0 false then frags.drop 1 else frags
    let S : Int := match ref with
      | some r => r.frag.addr
      | none => if sym.plt_idx = -1 then sym.addr else sym.plt_addr
    let A : Int := match ref with
      | some r => r.addend
      | none => rel.r_addend
    let P : Int := ctx.sec_addr + rel.r_offset
    let G : Int := sym.got_entry_addr - ctx.got_addr
    let GOT : Int := ctx.got_addr
    let write : Int → List Write × Nat := fun val =>
      (write_val rel.r_type loc (toU64 val),
       if overflow_check rel.r_type (toU64 val) then 1 else 0)
    let next : Bool → ApplyResult := fun skip =>
      if skip then
        applyRelocAllocRels ctx syms (rels.drop 1) (kinds.drop 2)
          (hf.drop 2) frags2
      else
        applyRelocAllocRels ctx syms rels (kinds.drop 1) (hf.drop 1) frags2
    let emit : List Write → Nat → List DynRel → Bool → ApplyResult :=
      fun ws errs drs skip =>
        let r := next skip
        ⟨ws ++ r.writes, drs ++ r.dynrels, errs + r.errors⟩
    match kinds.getD 0 .R_NONE with
    | .R_NONE => emit [] 0 [] false
    | .R_ABS =>
      let w := write (S + A)
      emit w.1 w.2 [] false
    | .R_ABS_DYN =>
      let w := write (S + A)
      emit w.1 w.2 [⟨P, R_X86_64_RELATIVE, 0, toI64 (S + A)⟩] false
    | .R_DYN =>
      emit [] 0 [⟨P, R_X86_64_64, sym.dynsym_idx, A⟩] false
    | .R_PC =>
      let w := write (S + A - P)
      emit w.1 w.2 [] false
    | .R_GOT =>
      let w := write (G + A)
      emit w.1 w.2 [] false
    | .R_GOTPC =>
      let w := write (GOT + A - P)
      emit w.1 w.2 [] false
    | .R_GOTPCREL =>
      let w := write (G + GOT + A - P)
      emit w.1 w.2 [] false
    | .R_TLSGD =>
      let w := write (sym.tlsgd_addr + A - P)
      emit w.1 w.2 [] false
    | .R_TLSGD_RELAX_LE =>
      emit [⟨loc - 4, tlsgdInsn⟩,
            ⟨loc + 8, leBytes (toU64 (S - ctx.tls_end + A + 4)) 4⟩] 0 [] true
    | .R_TLSLD =>
      let w := write (ctx.tlsld_addr + A - P)
      emit w.1 w.2 [] false
    | .R_TLSLD_RELAX_LE =>
      emit [⟨loc - 3, tlsldInsn⟩] 0 [] true
    | .R_DTPOFF =>
      let w := write (S + A - ctx.tls_begin)
      emit w.1 w.2 [] false
    | .R_TPOFF =>
      let w := write (S + A - ctx.tls_end)
      emit w.1 w.2 [] false
    | .R_GOTTPOFF =>
      let w := write (sym.gottpoff_addr + A - P)
      emit w.1 w.2 [] false
termination_by rels => rels.length
decreasing_by all_goals simp_wf <;> omega

/-- `InputSection::apply_reloc_alloc` over one section whose
`rel_types` were filled by the scanner. -/
def apply_reloc_alloc (ctx : ApplyCtx) (syms : List Symbol)
    (sec : InputSection) (rel_types : List RelKind) : ApplyResult :=
  applyRelocAllocRels ctx syms sec.rels rel_types
    sec.has_fragments sec.rel_fragments

/-- The loop of `InputSection::apply_reloc_nonalloc`.  The undefined-
symbol `continue` happens before the fragment reference is consumed,
exactly as in the source. -/
def applyRelocNonallocRels (ctx : ApplyCtx) (syms : List Symbol) :
    List Rel → List Bool → List FragRef → ApplyResult
  | [], _, _ => {}
  | rel :: rels, hf, frags =>
    let sym := syms.getD rel.r_sym defaultSym
    if !sym.has_file || sym.is_placeholder then
      let r := applyRelocNonallocRels ctx syms rels (hf.drop 1) frags
      ⟨r.writes, r.dynrels, 1 + r.errors⟩
    else
      let ref : Option FragRef :=
        if hf.getD 0 false then some (frags.getD 0 {}) else none
      let frags2 := if hf.getD 0 false then frags.drop 1 else frags
      let loc : Int := rel.r_offset
      let r := applyRelocNonallocRels ctx syms rels (hf.drop 1) frags2
      if rel.r_type == R_X86_64_NONE then
        ⟨r.writes, r.dynrels, r.errors⟩
      else if rel.r_type == R_X86_64_8 || rel.r_type == R_X86_64_16 ||
              rel.r_type == R_X86_64_32 || rel.r_type == R_X86_64_32S ||
              rel.r_type == R_X86_64_64 then
        let val : Int := match ref with
          | some fr => fr.frag.addr
          | none => sym.addr
        ⟨write_val rel.r_type loc (toU64 val) ++ r.writes, r.dynrels,
         (if overflow_check rel.r_type (toU64 val) then 1 else 0) + r.errors⟩
      else if rel.r_type == R_X86_64_DTPOFF64 then
        ⟨write_val rel.r_type loc (toU64 (sym.addr + rel.r_addend - ctx.tls_begin))
           ++ r.writes, r.dynrels, r.errors⟩
      else
        -- "invalid relocation for non-allocated sections" or unknown
        ⟨r.writes, r.dynrels, 1 + r.errors⟩

/-- `InputSection::apply_reloc_nonalloc` over one section. -/
def apply_reloc_nonalloc (ctx : ApplyCtx) (syms : List Symbol)
    (sec : InputSection) : ApplyResult :=
  applyRelocNonallocRels ctx syms sec.rels sec.has_fragments sec.rel_fragments

/-- `InputSection::copy_buf`: a section of type SHT_NOBITS or of size
zero is skipped entirely — its bytes are not copied and its
relocations are never applied.  Otherwise the section's bytes are
copied into its slice of the output buffer and the relocations are
applied by `apply_reloc_alloc` for SHF_ALLOC sections and by
`apply_reloc_nonalloc` for the rest. -/
def copy_buf (ctx : ApplyCtx) (syms : List Symbol) (sec : InputSection)
    (rel_types : List RelKind) : ApplyResult :=
  if sec.shdr.sh_type == SHT_NOBITS || sec.shdr.sh_size == 0 then {}
  else
    let r :=
      if sec.shdr.sh_flags &&& SHF_ALLOC ≠ 0 then
        apply_reloc_alloc ctx syms sec rel_types
      else
        apply_reloc_nonalloc ctx syms sec
    ⟨⟨0, sec.contents⟩ :: r.writes, r.dynrels, r.errors⟩

/-- The apply phase over one file: every section goes through
`copy_buf`, paired with the `rel_types` its scan produced (sections
the scanner did not process get the empty array, which `copy_buf`
never reads for them); the `.rela.dyn` records are collected in
order. -/
def applyFileDynrels (ctx : ApplyCtx) (syms : List Symbol) :
    List InputSection → List (Option (Nat × ScanResult)) → List DynRel
  | [], _ => []
  | sec :: secs, [] =>
    (copy_buf ctx syms sec []).dynrels ++ applyFileDynrels ctx syms secs []
  | sec :: secs, scanRes :: rest =>
    let rts := match scanRes with
      | none => []
      | some s => s.2.rel_types
    (copy_buf ctx syms sec rts).dynrels ++ applyFileDynrels ctx syms secs rest

/-! ## ICF initial digest (`compute_digest` in icf.cc)

The SHA-256 state is modelled by the exact sequence of absorbed fields:
`SHA256_Update` with 8 bytes of an `i64` is a `.num` chunk, a raw byte
run is a `.str` chunk.  Two sections get equal hashes iff (collisions
aside) their absorbed chunk sequences are equal. -/

/-- One absorbed field of the digest. -/
inductive Chunk where
  | num (v : Int)
  | str (s : List Nat)
deriving DecidableEq, Repr

/-- `hash_i64`: absorb an integer as 8 bytes. -/
def hash_i64 (v : Int) : List Chunk := [.num v]

/-- `hash_string`: absorb the length, then the raw bytes. -/
def hash_string (s : List Nat) : List Chunk := [.num s.length, .str s]

/-- `hash_symbol` from `compute_digest`. -/
def hash_symbol (sym : Symbol) : List Chunk :=
  (match sym.frag with
   | some frag => hash_i64 2 ++ hash_string frag.data
   | none => if !sym.has_input_section then hash_i64 3 else hash_i64 4) ++
  hash_i64 sym.value

/-- The FDE part of `compute_digest`: bytes `[0,4)` and `[8,end)` of
the contents (CIE offset excluded), the relocation count, and every
FDE relocation except the first. -/
def hashFde (fde : FdeRecord) : List Chunk :=
  hash_string (fde.contents.take 4) ++ hash_string (fde.contents.drop 8) ++
  hash_i64 fde.rels.length ++
  ((fde.rels.drop 1).map fun rel =>
    hash_symbol rel.sym ++ hash_i64 rel.type ++ hash_i64 rel.offset ++
      hash_i64 rel.addend).flatten

/-- The relocation part of `compute_digest`: `ref_idx` walks
`rel_fragments` in lockstep with the set bits of `has_fragments`. -/
def hashRels (syms : List Symbol) :
    List Rel → List Bool → List FragRef → List Chunk
  | [], _, _ => []
  | rel :: rels, hf, frags =>
    hash_i64 rel.r_offset ++ hash_i64 rel.r_type ++ hash_i64 rel.r_addend ++
    (if hf.getD 0 false then
      hash_i64 1 ++ hash_i64 (frags.getD 0 {}).addend ++
        hash_string (frags.getD 0 {}).frag.data ++
        hashRels syms rels (hf.drop 1) (frags.drop 1)
     else
      hash_symbol (syms.getD rel.r_sym defaultSym) ++
        hashRels syms rels (hf.drop 1) frags)

/-- `compute_digest` from icf.cc, as the absorbed chunk sequence. -/
def compute_digest (syms : List Symbol) (isec : InputSection) : List Chunk :=
  hash_string isec.contents ++ hash_i64 isec.shdr.sh_flags ++
  hash_i64 isec.fdes.length ++ hash_i64 isec.rels.length ++
  (isec.fdes.map hashFde).flatten ++
  hashRels syms isec.rels isec.has_fragments isec.rel_fragments

/-! Spec-side restatement of the digest layout, written from the
specification's words (§4.4), for the refinement proof of C3. -/

/-- Spec side: a length-prefixed string field. -/
def specString (s : List Nat) : List Chunk := [.num s.length, .str s]

/-- Spec side: the symbol digest — tag `2` plus fragment bytes if the
symbol refers to a fragment, tag `3` if it has no input section, tag
`4` otherwise, always followed by the symbol value. -/
def specSymbolDigest (sym : Symbol) : List Chunk :=
  (match sym.frag with
   | some frag => [.num 2] ++ specString frag.data
   | none => if sym.has_input_section then [.num 4] else [.num 3]) ++
  [.num sym.value]

/-- Spec side: pair each relocation with the fragment reference it
targets, if any (set bits of `has_fragments` select successive
elements of `rel_fragments`). -/
def fragOpts : List Bool → List FragRef → List (Option FragRef)
  | [], _ => []
  | true :: hf, frags => some (frags.getD 0 {}) :: fragOpts hf (frags.drop 1)
  | false :: hf, frags => none :: fragOpts hf frags

/-- Spec side: the fields absorbed for one relocation — `r_offset`,
`r_type`, `r_addend`, then tag `1` with the fragment addend and
fragment bytes when the relocation targets a fragment, else the symbol
digest. -/
def specRelChunk (syms : List Symbol) (p : Rel × Option FragRef) : List Chunk :=
  [.num p.1.r_offset, .num p.1.r_type, .num p.1.r_addend] ++
  (match p.2 with
   | some ref => [.num 1, .num ref.addend] ++ specString ref.frag.data
   | none => specSymbolDigest (syms.getD p.1.r_sym defaultSym))

/-- Spec side: the fields absorbed for one FDE — contents bytes `[0,4)`
and `[8,end)` each length-prefixed, the relocation count, then for
each FDE relocation except the first the symbol digest, `r_type`,
offset and addend. -/
def specFdeChunk (fde : FdeRecord) : List Chunk :=
  specString (fde.contents.take 4) ++ specString (fde.contents.drop 8) ++
  [.num fde.rels.length] ++
  ((fde.rels.drop 1).map fun r =>
    specSymbolDigest r.sym ++ [.num r.type, .num r.offset, .num r.addend]).flatten

/-- Spec side: the whole digest layout of §4.4 in its stated order. -/
def specDigest (syms : List Symbol) (isec : InputSection) : List Chunk :=
  specString isec.contents ++
  [.num isec.shdr.sh_flags, .num isec.fdes.length, .num isec.rels.length] ++
  (isec.fdes.map specFdeChunk).flatten ++
  ((isec.rels.zip (fragOpts isec.has_fragments isec.rel_fragments)).map
    (specRelChunk syms)).flatten

/-! ## ICF fixed-point propagation (icf.cc `icf_sections`)

Digests are abstracted to `Nat`; the truncated SHA-256 of one
propagation round is an arbitrary function `H` on the absorbed digest
list, assumed injective where the spec assumes collision freedom. -/

/-- The successor digest indices of node `i` in the CSR edge arrays:
`edge_indices[i]` up to `edge_indices[i+1]` (or `edges.size` for the
last node). -/
def succsOf (ei es : List Nat) (n i : Nat) : List Nat :=
  let b := ei.getD i 0
  let e := if i + 1 = n then es.length else ei.getD (i + 1) 0
  (es.drop b).take (e - b)

/-- One propagation round: every eligible node `i < n` is rehashed
from its current digest and its successors' digests; entries past the
eligible prefix are left unchanged. -/
def icfStep (H : List Nat → Nat) (ei es : List Nat) (n : Nat)
    (d : List Nat) : List Nat :=
  (List.range d.length).map fun i =>
    if i < n then H (d.getD i 0 :: (succsOf ei es n i).map fun j => d.getD j 0)
    else d.getD i 0

/-- `count_num_classes`: the number of adjacent eligible index pairs
whose digests differ. -/
def numClasses (n : Nat) (d : List Nat) : Nat :=
  (List.range (n - 1)).countP fun i => d.getD i 0 != d.getD (i + 1) 0

/-- The propagation loop: rounds run until one leaves `num_classes`
unchanged; `fuel` bounds the number of rounds (`none` = fuel ran out
before convergence). -/
def icfLoop (H : List Nat → Nat) (ei es : List Nat) (n : Nat) :
    Nat → List Nat → Nat → Option (List Nat)
  | 0, _, _ => none
  | fuel + 1, d, nc =>
    let d2 := icfStep H ei es n d
    let nc2 := numClasses n d2
    if nc2 = nc then some d2 else icfLoop H ei es n fuel d2 nc2

/-! ## ICF merge (icf.cc `icf_sections`, merge phase)

`ds` is the list of final digests of the entries in their sorted
`(digest, priority)` order; positions stand for the sections. -/

/-- The first index `≥ j` at which the digest run `dig` breaks (the
exit value of the inner `while` of the merge loop). -/
def runEnd (ds : List Nat) (dig : Nat) (j : Nat) : Nat :=
  if j < ds.length ∧ ds.getD j 0 = dig then runEnd ds dig (j + 1) else j
termination_by ds.length - j
decreasing_by omega

/-- The merge loop's run-start test: `i == 0 || entries[i-1].digest !=
entries[i].digest`. -/
def isRunStart (ds : List Nat) (i : Nat) : Bool :=
  i == 0 || ds.getD (i - 1) 0 != ds.getD i 0

/-- All leader assignments made by the merge loop, as (position,
leader position) pairs: each run start `i` walks the following equal-
digest entries and sets their leader to `i`. -/
def mergeAssign (ds : List Nat) : List (Nat × Nat) :=
  (List.range (ds.length - 1)).flatMap fun i =>
    if isRunStart ds i then
      (List.range' (i + 1) (runEnd ds (ds.getD i 0) (i + 1) - (i + 1))).map
        fun j => (j, i)
    else []

/-- The `leader` field of the section at position `j` after the merge
loop (`none` = null). -/
def leaderPos (ds : List Nat) (j : Nat) : Option Nat :=
  ((mergeAssign ds).find? fun p => p.1 == j).map (·.2)

/-- Spec side: the first position of the maximal equal-digest run
containing `j`. -/
def runStart (ds : List Nat) : Nat → Nat
  | 0 => 0
  | j + 1 => if ds.getD j 0 = ds.getD (j + 1) 0 then runStart ds j else j + 1

/-- The symbol rewriting pass: a symbol whose `input_section` has a
non-null leader is redirected to that leader. -/
def rewriteSym (ds : List Nat) (s : Option Nat) : Option Nat :=
  match s with
  | none => none
  | some sec =>
    match leaderPos ds sec with
    | some l => some l
    | none => some sec

/-- A concrete zero-size NOBITS section (allocated, executable). -/
def nobitsSec : InputSection :=
  { shdr := { sh_flags := SHF_ALLOC + SHF_EXECINSTR
              sh_type := SHT_NOBITS
              sh_size := 0 }
    name := ".bss".toList }

/-! ## Theorems -/

/-- C6: for every input section, `is_eligible` returns true iff the
section's flags include SHF_ALLOC and SHF_EXECINSTR and exclude
SHF_WRITE, its type is not SHT_NOBITS, it is neither
`.init`/SHT_INIT_ARRAY nor `.fini`/SHT_FINI_ARRAY, and its name is not
a valid C identifier. -/
theorem c6_is_eligible_iff (isec : InputSection) :
    is_eligible isec = true ↔
      (isec.shdr.sh_flags &&& SHF_ALLOC ≠ 0 ∧
       isec.shdr.sh_flags &&& SHF_EXECINSTR ≠ 0 ∧
       isec.shdr.sh_flags &&& SHF_WRITE = 0 ∧
       isec.shdr.sh_type ≠ SHT_NOBITS ∧
       ¬(isec.shdr.sh_type = SHT_INIT_ARRAY ∨ isec.name = ".init".toList) ∧
       ¬(isec.shdr.sh_type = SHT_FINI_ARRAY ∨ isec.name = ".fini".toList) ∧
       is_c_identifier isec.name = false) := by
  simp only [is_eligible, Bool.and_eq_true, Bool.or_eq_false_iff,
    Bool.not_eq_true', decide_eq_true_eq, decide_eq_false_iff_not, ne_eq,
    not_not, not_or]
  tauto

/-- C9 counterexample: a zero-size allocated executable read-only
PROGBITS section named `.text` has `sh_size = 0` and yet
`is_eligible` returns `true` — the claim that a zero-size section is
never eligible is false on the code, which never inspects `sh_size`. -/
theorem c9_counterexample :
    is_eligible zeroSizeSec = true ∧ zeroSizeSec.shdr.sh_size = 0 := by
  constructor <;> rfl

/-- C9 (amended): `is_eligible` does not depend on the section size at
all — changing `sh_size` never changes its result — and a zero-size
section of type SHT_NOBITS is never eligible (only the NOBITS test,
not the size, excludes empty sections). -/
theorem c9_amended_size_independent :
    (∀ (isec : InputSection) (n : Nat),
      is_eligible { isec with shdr := { isec.shdr with sh_size := n } } =
        is_eligible isec) ∧
    (∀ isec : InputSection, isec.shdr.sh_type = SHT_NOBITS →
      is_eligible isec = false) := by
  constructor
  · intro isec n
    rfl
  · intro isec h
    simp [is_eligible, h, SHT_NOBITS]

/-- Witness for the amended C9 at a concrete NOBITS section. -/
theorem c9_amended_size_independent_witness :
    nobitsSec.shdr.sh_type = SHT_NOBITS ∧ is_eligible nobitsSec = false :=
  ⟨rfl, c9_amended_size_independent.2 nobitsSec rfl⟩

/-- C2: classification of a scanned `R_X86_64_64` relocation whose
symbol is defined and not a placeholder.  Without `pie` it is `R_ABS`
(setting NEEDS_PLT for a code symbol, NEEDS_COPYREL otherwise, when
imported); with `pie` an imported symbol gives `R_DYN` with
NEEDS_DYNSYM and a `num_dynrel` increment (error when the section is
read-only), a relative symbol gives `R_ABS_DYN` with a `num_dynrel`
increment (error when read-only), and otherwise `R_ABS`. -/
theorem c2_scan_r64 (cfg : Config) (ro : Bool) (syms : List Symbol)
    (rel : Rel) (rest : List Rel) (sym : Symbol)
    (hsym : syms.getD rel.r_sym defaultSym = sym)
    (hty : rel.r_type = R_X86_64_64)
    (hdef : sym.has_file = true) (hph : sym.is_placeholder = false) :
    (cfg.pie = false →
      scanRels cfg ro syms (rel :: rest) =
        .cons .R_ABS 0
          (if sym.is_imported then
            [(rel.r_sym,
              if sym.st_type = STT_FUNC then NEEDS_PLT else NEEDS_COPYREL)]
           else []) 0 (scanRels cfg ro syms rest)) ∧
    (cfg.pie = true → sym.is_imported = true →
      scanRels cfg ro syms (rel :: rest) =
        .cons .R_DYN 1 [(rel.r_sym, NEEDS_DYNSYM)] (if ro then 1 else 0)
          (scanRels cfg ro syms rest)) ∧
    (cfg.pie = true → sym.is_imported = false → sym.is_relative = true →
      scanRels cfg ro syms (rel :: rest) =
        .cons .R_ABS_DYN 1 [] (if ro then 1 else 0)
          (scanRels cfg ro syms rest)) ∧
    (cfg.pie = true → sym.is_imported = false → sym.is_relative = false →
      scanRels cfg ro syms (rel :: rest) =
        .cons .R_ABS 0 [] 0 (scanRels cfg ro syms rest)) := by
  refine ⟨fun hpie => ?_, fun hpie himp => ?_, fun hpie himp hrel => ?_,
    fun hpie himp hrel => ?_⟩ <;>
  · rw [scanRels.eq_def]
    simp only [scanStep, hsym, hty, hdef, hph, hpie, *]
    norm_num [R_X86_64_NONE, R_X86_64_64, R_X86_64_8, R_X86_64_16,
      R_X86_64_32, R_X86_64_32S, STT_FUNC]

/-- Witness for C2 at a concrete pie-imported-readonly input. -/
theorem c2_scan_r64_witness :
    ([({ is_imported := true } : Symbol)].getD ({ r_type := 1 } : Rel).r_sym
        defaultSym = { is_imported := true } ∧
      ({ r_type := 1 } : Rel).r_type = R_X86_64_64 ∧
      ({ is_imported := true } : Symbol).has_file = true ∧
      ({ is_imported := true } : Symbol).is_placeholder = false ∧
      ({ pie := true } : Config).pie = true ∧
      ({ is_imported := true } : Symbol).is_imported = true) ∧
    scanRels { pie := true } true [{ is_imported := true }] [{ r_type := 1 }] =
      .cons .R_DYN 1 [(0, NEEDS_DYNSYM)] 1
        (scanRels { pie := true } true [{ is_imported := true }] []) :=
  ⟨⟨rfl, rfl, rfl, rfl, rfl, rfl⟩,
    (c2_scan_r64 { pie := true } true [{ is_imported := true }]
      { r_type := 1 } [] { is_imported := true } rfl rfl rfl rfl).2.1 rfl rfl⟩

/-- C10: in `apply_reloc_nonalloc`, an `R_X86_64_8/16/32/32S/64`
relocation with a defined symbol writes exactly the fragment's address
when the relocation targets a fragment and the symbol's address
otherwise — `r_addend` is not added — whereas `R_X86_64_DTPOFF64`
writes the symbol address plus `r_addend` minus `tls_begin`. -/
theorem c10_nonalloc_values (ctx : ApplyCtx) (syms : List Symbol)
    (rel : Rel) (rels : List Rel) (hf : List Bool) (frags : List FragRef)
    (sym : Symbol) (hsym : syms.getD rel.r_sym defaultSym = sym)
    (hdef : sym.has_file = true) (hph : sym.is_placeholder = false) :
    (rel.r_type = R_X86_64_8 ∨ rel.r_type = R_X86_64_16 ∨
     rel.r_type = R_X86_64_32 ∨ rel.r_type = R_X86_64_32S ∨
     rel.r_type = R_X86_64_64 →
      applyRelocNonallocRels ctx syms (rel :: rels) hf frags =
        (let val : Int := if hf.getD 0 false then (frags.getD 0 {}).frag.addr
                          else sym.addr
         let r := applyRelocNonallocRels ctx syms rels (hf.drop 1)
           (if hf.getD 0 false then frags.drop 1 else frags)
         ⟨write_val rel.r_type rel.r_offset (toU64 val) ++ r.writes, r.dynrels,
          (if overflow_check rel.r_type (toU64 val) then 1 else 0) + r.errors⟩)) ∧
    (rel.r_type = R_X86_64_DTPOFF64 →
      applyRelocNonallocRels ctx syms (rel :: rels) hf frags =
        (let r := applyRelocNonallocRels ctx syms rels (hf.drop 1)
           (if hf.getD 0 false then frags.drop 1 else frags)
         ⟨write_val rel.r_type rel.r_offset
            (toU64 (sym.addr + rel.r_addend - ctx.tls_begin)) ++ r.writes,
          r.dynrels, r.errors⟩)) := by
  constructor
  · rintro (hty | hty | hty | hty | hty) <;>
    · rw [applyRelocNonallocRels.eq_def]
      cases hh : hf.getD 0 false <;>
      · simp only [List.getD_eq_getElem?_getD] at hh
        simp only [hsym, hty, hdef, hph, hh]
        norm_num [R_X86_64_NONE, R_X86_64_8, R_X86_64_16, R_X86_64_32,
          R_X86_64_32S, R_X86_64_64, R_X86_64_DTPOFF64, hh]
  · intro hty
    rw [applyRelocNonallocRels.eq_def]
    cases hh : hf.getD 0 false <;>
    · simp only [List.getD_eq_getElem?_getD] at hh
      simp only [hsym, hty, hdef, hph, hh]
      norm_num [R_X86_64_NONE, R_X86_64_8, R_X86_64_16, R_X86_64_32,
        R_X86_64_32S, R_X86_64_64, R_X86_64_DTPOFF64, hh]

/-- Witness for C10 at a concrete fragment-targeting relocation. -/
theorem c10_nonalloc_values_witness :
    (([({ addr := 7 } : Symbol)].getD ({ r_type := 1, r_addend := 5 } : Rel).r_sym
        defaultSym = { addr := 7 }) ∧
      ({ addr := 7 } : Symbol).has_file = true ∧
      ({ addr := 7 } : Symbol).is_placeholder = false ∧
      ({ r_type := 1, r_addend := 5 } : Rel).r_type = R_X86_64_64) ∧
    applyRelocNonallocRels {} [{ addr := 7 }] [{ r_type := 1, r_addend := 5 }]
        [true] [{ frag := { addr := 90 } }] =
      (let val : Int := if [true].getD 0 false
         then ([({ frag := ({ addr := 90 } : Fragment) } : FragRef)].getD 0 {}).frag.addr
         else ({ addr := 7 } : Symbol).addr
       let r := applyRelocNonallocRels {} [{ addr := 7 }] [] ([true].drop 1)
         (if [true].getD 0 false
          then [({ frag := ({ addr := 90 } : Fragment) } : FragRef)].drop 1
          else [{ frag := { addr := 90 } }])
       ⟨write_val ({ r_type := 1, r_addend := 5 } : Rel).r_type
          ({ r_type := 1, r_addend := 5 } : Rel).r_offset (toU64 val) ++ r.writes,
        r.dynrels,
        (if overflow_check ({ r_type := 1, r_addend := 5 } : Rel).r_type (toU64 val)
         then 1 else 0) + r.errors⟩) :=
  ⟨⟨rfl, rfl, rfl, rfl⟩,
    (c10_nonalloc_values {} [{ addr := 7 }] { r_type := 1, r_addend := 5 } []
      [true] [{ frag := { addr := 90 } }] { addr := 7 } rfl rfl rfl).1
      (.inr (.inr (.inr (.inr rfl))))⟩

/-- C8: with `relax` enabled and a non-imported defined symbol, a
scanned `R_X86_64_TLSGD` relocation is classified `R_TLSGD_RELAX_LE`
and the following relocation is consumed (an error is reported when it
is absent or not PLT32); the applier then installs the 16-byte
sequence `64 48 8b 04 25 00 00 00 00 48 8d 80 00 00 00 00` starting 4
bytes before the site, stores `S - tls_end + A + 4` into the 32-bit
field 8 bytes past the site, and skips the following relocation. -/
theorem c8_tlsgd_relax_le (cfg : Config) (ro : Bool) (syms : List Symbol)
    (rel : Rel) (sym : Symbol)
    (hsym : syms.getD rel.r_sym defaultSym = sym)
    (hty : rel.r_type = R_X86_64_TLSGD)
    (hdef : sym.has_file = true) (hph : sym.is_placeholder = false)
    (hrelax : cfg.relax = true) (himp : sym.is_imported = false) :
    (∀ (next : Rel) (rest : List Rel),
      scanRels cfg ro syms (rel :: next :: rest) =
        .cons2 .R_TLSGD_RELAX_LE 0 []
          (if next.r_type == R_X86_64_PLT32 then 0 else 1)
          (scanRels cfg ro syms rest)) ∧
    (scanRels cfg ro syms [rel] = ⟨[.R_TLSGD_RELAX_LE], 0, [], 1⟩) ∧
    (∀ (ctx : ApplyCtx) (asyms : List Symbol) (arel anext : Rel)
       (arels : List Rel) (kinds : List RelKind) (hfl : List Bool)
       (frags : List FragRef) (asym : Symbol),
      asyms.getD arel.r_sym defaultSym = asym →
      applyRelocAllocRels ctx asyms (arel :: anext :: arels)
          (.R_TLSGD_RELAX_LE :: kinds) hfl frags =
        (let ref : Option FragRef :=
           if hfl.getD 0 false then some (frags.getD 0 {}) else none
         let S : Int := match ref with
           | some r => r.frag.addr
           | none => if asym.plt_idx = -1 then asym.addr else asym.plt_addr
         let A : Int := match ref with
           | some r => r.addend
           | none => arel.r_addend
         let r := applyRelocAllocRels ctx asyms arels (kinds.drop 1)
           (hfl.drop 2) (if hfl.getD 0 false then frags.drop 1 else frags)
         ⟨⟨(arel.r_offset : Int) - 4,
            [0x64, 0x48, 0x8b, 0x04, 0x25, 0, 0, 0, 0,
             0x48, 0x8d, 0x80, 0, 0, 0, 0]⟩ ::
          ⟨(arel.r_offset : Int) + 8,
            leBytes (toU64 (S - ctx.tls_end + A + 4)) 4⟩ :: r.writes,
          r.dynrels, r.errors⟩)) := by
  refine ⟨fun next rest => ?_, ?_, fun ctx asyms arel anext arels kinds hfl
    frags asym hasym => ?_⟩
  · rw [scanRels.eq_def]
    simp only [scanStep, hsym, hty, hdef, hph, hrelax, himp]
    norm_num [R_X86_64_NONE, R_X86_64_8, R_X86_64_16, R_X86_64_32,
      R_X86_64_32S, R_X86_64_64, R_X86_64_PC8, R_X86_64_PC16, R_X86_64_PC32,
      R_X86_64_PC64, R_X86_64_GOT32, R_X86_64_GOTPC32, R_X86_64_GOTPCREL,
      R_X86_64_GOTPCRELX, R_X86_64_REX_GOTPCRELX, R_X86_64_PLT32,
      R_X86_64_TLSGD]
  · rw [scanRels.eq_def]
    simp only [scanStep, hsym, hty, hdef, hph, hrelax, himp]
    norm_num [R_X86_64_NONE, R_X86_64_8, R_X86_64_16, R_X86_64_32,
      R_X86_64_32S, R_X86_64_64, R_X86_64_PC8, R_X86_64_PC16, R_X86_64_PC32,
      R_X86_64_PC64, R_X86_64_GOT32, R_X86_64_GOTPC32, R_X86_64_GOTPCREL,
      R_X86_64_GOTPCRELX, R_X86_64_REX_GOTPCRELX, R_X86_64_PLT32,
      R_X86_64_TLSGD]
  · rw [applyRelocAllocRels.eq_def]
    cases hh : hfl.getD 0 false <;>
    · simp only [List.getD_eq_getElem?_getD] at hh
      simp only [hasym, hh]
      norm_num [tlsgdInsn, hh]

/-- Witness for C8 at a concrete TLSGD+PLT32 pair under `relax`. -/
theorem c8_tlsgd_relax_le_witness :
    (([({} : Symbol)].getD ({ r_type := 19 } : Rel).r_sym defaultSym = {}) ∧
      ({ r_type := 19 } : Rel).r_type = R_X86_64_TLSGD ∧
      ({} : Symbol).has_file = true ∧
      ({} : Symbol).is_placeholder = false ∧
      ({ relax := true } : Config).relax = true ∧
      ({} : Symbol).is_imported = false) ∧
    scanRels { relax := true } false [{}] [{ r_type := 19 }, { r_type := 4 }] =
      .cons2 .R_TLSGD_RELAX_LE 0 []
        (if ({ r_type := 4 } : Rel).r_type == R_X86_64_PLT32 then 0 else 1)
        (scanRels { relax := true } false [{}] []) :=
  ⟨⟨rfl, rfl, rfl, rfl, rfl, rfl⟩,
    (c8_tlsgd_relax_le { relax := true } false [{}] { r_type := 19 } {}
      rfl rfl rfl rfl rfl rfl).1 { r_type := 4 } []⟩

/-! ## Lemmas about the scan result combinators -/

@[simp] theorem ScanResult.cons_rel_types (k d fl e r) :
    (ScanResult.cons k d fl e r).rel_types = k :: r.rel_types := rfl

@[simp] theorem ScanResult.cons_num_dynrel (k d fl e r) :
    (ScanResult.cons k d fl e r).num_dynrel = d + r.num_dynrel := rfl

@[simp] theorem ScanResult.cons2_rel_types (k d fl e r) :
    (ScanResult.cons2 k d fl e r).rel_types = k :: .R_NONE :: r.rel_types := rfl

@[simp] theorem ScanResult.cons2_num_dynrel (k d fl e r) :
    (ScanResult.cons2 k d fl e r).num_dynrel = d + r.num_dynrel := rfl

/-- A dynamic-relocation kind: `R_DYN` or `R_ABS_DYN`. -/
def isDynKind (k : RelKind) : Bool := k == .R_DYN || k == .R_ABS_DYN

/-- The scanner fills one `rel_types` slot per relocation. -/
theorem scanRels_length (cfg : Config) (ro : Bool) (syms : List Symbol) :
    ∀ rels : List Rel,
      (scanRels cfg ro syms rels).rel_types.length = rels.length := by
  intro rels
  induction rels using scanRels.induct cfg ro syms <;>
    rw [scanRels.eq_def] <;> simp_all

/-- What the switch can produce, `one` case: the `num_dynrel`
increment is 1 exactly for the dynamic kinds, and the kind is never a
relaxation kind (those always consume the next relocation). -/
theorem scanStep_one_dyn {cfg : Config} {ro : Bool} {syms : List Symbol}
    {rel : Rel} {nx : Option Rel} {k d fl e}
    (h : scanStep cfg ro syms rel nx = .one k d fl e) :
    d = (if isDynKind k then 1 else 0) ∧
      k ≠ .R_TLSGD_RELAX_LE ∧ k ≠ .R_TLSLD_RELAX_LE := by
  unfold scanStep at h
  split at h <;>
  · dsimp only at h
    split_ifs at h <;> cases h <;>
      refine ⟨?_, ?_, ?_⟩ <;>
        first
          | rfl
          | simp [isDynKind]
          | (split <;> simp [isDynKind])

/-- What the switch can produce, `two` case: only the TLS relaxation
kinds consume the following relocation, and they never increment
`num_dynrel`. -/
theorem scanStep_two_dyn {cfg : Config} {ro : Bool} {syms : List Symbol}
    {rel : Rel} {nx : Option Rel} {k d fl e}
    (h : scanStep cfg ro syms rel nx = .two k d fl e) :
    d = 0 ∧ isDynKind k = false ∧
      (k = .R_TLSGD_RELAX_LE ∨ k = .R_TLSLD_RELAX_LE) := by
  unfold scanStep at h
  split at h <;>
  · dsimp only at h
    split_ifs at h <;> cases h <;>
      refine ⟨?_, ?_, ?_⟩ <;>
        first
          | rfl
          | simp [isDynKind]
          | (split <;> simp [isDynKind])

/-- The scanner's `num_dynrel` counts exactly the `R_DYN` and
`R_ABS_DYN` entries of the `rel_types` it produces. -/
theorem scanRels_num_dynrel_eq_countP (cfg : Config) (ro : Bool)
    (syms : List Symbol) :
    ∀ rels : List Rel,
      (scanRels cfg ro syms rels).num_dynrel =
        (scanRels cfg ro syms rels).rel_types.countP isDynKind := by
  intro rels
  induction rels using scanRels.induct cfg ro syms with
  | case1 => simp [scanRels]
  | case2 rel rest k d fl e heq ih =>
    obtain ⟨hd, -, -⟩ := scanStep_one_dyn heq
    rw [scanRels.eq_def]
    simp only [heq, ScanResult.cons_rel_types, ScanResult.cons_num_dynrel,
      List.countP_cons, ih]
    simp only [isDynKind] at hd ⊢
    split <;> simp_all <;> omega
  | case3 rel k d fl e heq =>
    obtain ⟨hd, hk, -⟩ := scanStep_two_dyn heq
    simp only [List.head?_nil] at heq
    rw [scanRels.eq_def]
    simp [heq, List.countP_cons, hd, hk]
  | case4 rel k d fl e next rest2 heq ih =>
    obtain ⟨hd, hk, -⟩ := scanStep_two_dyn heq
    simp only [List.head?_cons] at heq
    rw [scanRels.eq_def]
    simp [heq, List.countP_cons, hd, hk, ih, isDynKind]
    simpa [isDynKind] using hk

/-- Per-section correspondence: applying a section's relocations with
the `rel_types` the scanner produced emits exactly the scanner's
`num_dynrel` count of records into `.rela.dyn`. -/
theorem applyRels_dynrels_of_scan (cfg : Config) (ro : Bool)
    (ctx : ApplyCtx) (syms asyms : List Symbol) :
    ∀ (rels : List Rel) (hf : List Bool) (frags : List FragRef),
      (applyRelocAllocRels ctx asyms rels
          (scanRels cfg ro syms rels).rel_types hf frags).dynrels.length =
        (scanRels cfg ro syms rels).num_dynrel := by
  intro rels
  induction rels using scanRels.induct cfg ro syms with
  | case1 =>
    intro hf frags
    simp [scanRels, applyRelocAllocRels]
  | case2 rel rest k d fl e heq ih =>
    intro hf frags
    obtain ⟨hd, hk1, hk2⟩ := scanStep_one_dyn heq
    rw [scanRels.eq_def]
    simp only [heq, ScanResult.cons_rel_types, ScanResult.cons_num_dynrel]
    rw [applyRelocAllocRels.eq_def]
    cases k <;> simp_all [isDynKind] <;> omega
  | case3 rel k d fl e heq =>
    intro hf frags
    obtain ⟨hd, -, hk3⟩ := scanStep_two_dyn heq
    simp only [List.head?_nil] at heq
    rw [scanRels.eq_def]
    rw [applyRelocAllocRels.eq_def]
    rcases hk3 with rfl | rfl <;>
      simp [applyRelocAllocRels, heq, hd]
  | case4 rel k d fl e next rest2 heq ih =>
    intro hf frags
    obtain ⟨hd, -, hk3⟩ := scanStep_two_dyn heq
    simp only [List.head?_cons] at heq
    rw [scanRels.eq_def]
    rw [applyRelocAllocRels.eq_def]
    rcases hk3 with rfl | rfl <;>
      simp [heq, hd, ih] <;> omega

/-- The `num_dynrel` contribution of one scanned section. -/
def scanDynOf (o : Option (Nat × ScanResult)) : Nat :=
  match o with
  | none => 0
  | some s => s.2.num_dynrel

/-- The number of `R_DYN`/`R_ABS_DYN` classifications of one scanned
section. -/
def scanDynCountOf (o : Option (Nat × ScanResult)) : Nat :=
  match o with
  | none => 0
  | some s => s.2.rel_types.countP isDynKind

/-- `apply_reloc_nonalloc` never emits a `.rela.dyn` record. -/
theorem applyRelocNonallocRels_dynrels (ctx : ApplyCtx) (syms : List Symbol) :
    ∀ (rels : List Rel) (hf : List Bool) (frags : List FragRef),
      (applyRelocNonallocRels ctx syms rels hf frags).dynrels = [] := by
  intro rels
  induction rels with
  | nil => intro hf frags; simp [applyRelocNonallocRels]
  | cons rel rels ih =>
    intro hf frags
    simp only [applyRelocNonallocRels]
    split_ifs <;> simp [ih]

/-- File-level scan bookkeeping: the file\'s final `num_dynrel` is the
initial value plus the per-section increments, and those increments
count the dynamic classifications. -/
theorem scanFile_dynrel (cfg : Config) (syms : List Symbol) :
    ∀ (secs : List InputSection) (nd : Nat),
      (scanFile cfg syms secs nd).2 =
          nd + ((scanFile cfg syms secs nd).1.map scanDynOf).sum ∧
      ((scanFile cfg syms secs nd).1.map scanDynCountOf).sum =
          ((scanFile cfg syms secs nd).1.map scanDynOf).sum := by
  intro secs
  induction secs with
  | nil => intro nd; simp [scanFile]
  | cons sec secs ih =>
    intro nd
    by_cases halloc : (sec.shdr.sh_flags &&& SHF_ALLOC == 0) = true
    · obtain ⟨ih1, ih2⟩ := ih nd
      simp [scanFile, scan_relocations, halloc, scanDynOf, scanDynCountOf,
        ih1, ih2]
    · obtain ⟨ih1, ih2⟩ :=
        ih (nd + (scanRels cfg (sec.shdr.sh_flags &&& SHF_WRITE == 0) syms
          sec.rels).num_dynrel)
      constructor <;>
        simp [scanFile, scan_relocations, halloc, scanDynOf, scanDynCountOf,
          ih1, ih2, ← scanRels_num_dynrel_eq_countP] <;>
        omega

/-- File-level apply bookkeeping: when no SHF_ALLOC section that
`copy_buf` skips (SHT_NOBITS or size zero) has dynamic
classifications, the apply phase writes exactly the per-section
`num_dynrel` counts into `.rela.dyn`. -/
theorem applyFile_dynrels (cfg : Config) (ctx : ApplyCtx)
    (syms : List Symbol) :
    ∀ (secs : List InputSection) (nd : Nat),
      (∀ sec ∈ secs,
        (sec.shdr.sh_type = SHT_NOBITS ∨ sec.shdr.sh_size = 0) →
        (scanRels cfg (sec.shdr.sh_flags &&& SHF_WRITE == 0) syms
          sec.rels).num_dynrel = 0) →
      (applyFileDynrels ctx syms secs (scanFile cfg syms secs nd).1).length =
        ((scanFile cfg syms secs nd).1.map scanDynOf).sum := by
  intro secs
  induction secs with
  | nil => intro nd _; simp [scanFile, applyFileDynrels]
  | cons sec secs ih =>
    intro nd hskip
    have hsec := hskip sec (by simp)
    have hrest : ∀ s ∈ secs,
        (s.shdr.sh_type = SHT_NOBITS ∨ s.shdr.sh_size = 0) →
        (scanRels cfg (s.shdr.sh_flags &&& SHF_WRITE == 0) syms
          s.rels).num_dynrel = 0 :=
      fun s hs => hskip s (by simp [hs])
    by_cases hz : (sec.shdr.sh_type == SHT_NOBITS || sec.shdr.sh_size == 0) = true
    · have hz' : sec.shdr.sh_type = SHT_NOBITS ∨ sec.shdr.sh_size = 0 := by
        simpa using hz
      by_cases halloc : (sec.shdr.sh_flags &&& SHF_ALLOC == 0) = true
      · simp [scanFile, scan_relocations, halloc, applyFileDynrels, copy_buf,
          hz, scanDynOf, ih nd hrest]
      · simp [scanFile, scan_relocations, halloc, applyFileDynrels, copy_buf,
          hz, scanDynOf, ih _ hrest, hsec hz']
    · by_cases halloc : (sec.shdr.sh_flags &&& SHF_ALLOC == 0) = true
      · have halloc' : sec.shdr.sh_flags &&& SHF_ALLOC = 0 := by simpa using halloc
        simp [scanFile, scan_relocations, halloc, applyFileDynrels, copy_buf,
          hz, halloc', scanDynOf, ih nd hrest, apply_reloc_nonalloc,
          applyRelocNonallocRels_dynrels]
      · have halloc' : sec.shdr.sh_flags &&& SHF_ALLOC ≠ 0 := by simpa using halloc
        simp [scanFile, scan_relocations, halloc, applyFileDynrels, copy_buf,
          hz, halloc', scanDynOf, ih _ hrest, apply_reloc_alloc,
          applyRels_dynrels_of_scan]

/-- A one-file input refuting C1 as stated: under `pie`, a writable
SHF_ALLOC section of type SHT_NOBITS with one `R_X86_64_64` relocation
against a relative symbol. -/
def c1NobitsFileW : List Symbol × List InputSection :=
  ([{ is_relative := true }],
   [{ shdr := { sh_flags := 3, sh_type := SHT_NOBITS, sh_size := 8 }
      rels := [{ r_type := 1 }] }])

/-- C1 counterexample: on `c1NobitsFileW` the scan classifies the
relocation `R_ABS_DYN` and leaves `num_dynrel = 1` with no error, but
`copy_buf` returns early for the NOBITS section, so the apply phase
writes no `.rela.dyn` record at all — the claimed written-equals-sum
equality fails on the program. -/
theorem c1_counterexample :
    (scanFile { pie := true } c1NobitsFileW.1 c1NobitsFileW.2 0).2 = 1 ∧
    applyFileDynrels {} c1NobitsFileW.1 c1NobitsFileW.2
      (scanFile { pie := true } c1NobitsFileW.1 c1NobitsFileW.2 0).1 = [] := by
  have hstep : scanStep { pie := true } false [{ is_relative := true }]
      { r_type := 1 } none = .one .R_ABS_DYN 1 [] 0 := by decide
  constructor
  · show (scanFile { pie := true } [{ is_relative := true }]
      [{ shdr := { sh_flags := 3, sh_type := SHT_NOBITS, sh_size := 8 }
         rels := [{ r_type := 1 }] }] 0).2 = 1
    simp only [scanFile, scan_relocations]
    rw [scanRels.eq_def]
    norm_num [SHT_NOBITS, SHF_ALLOC, SHF_WRITE]
    have e1 : ((3 : Nat) &&& 2 = 0) = False := by simp
    have e2 : ((1 : Nat) == 0) = false := by rfl
    simp [e1, e2, hstep, scanRels]
  · show applyFileDynrels {} c1NobitsFileW.1 c1NobitsFileW.2
      (scanFile { pie := true } c1NobitsFileW.1 c1NobitsFileW.2 0).1 = []
    simp only [c1NobitsFileW, scanFile, scan_relocations]
    norm_num [SHT_NOBITS]
    simp [applyFileDynrels, copy_buf, SHT_NOBITS]

/-- C1 (amended): after scanning, each file\'s `num_dynrel` equals the
number of relocations in its SHF_ALLOC sections classified `R_DYN` or
`R_ABS_DYN`; and at apply time the total number of `.rela.dyn` records
written over all files equals the sum over files of `num_dynrel`,
provided no SHF_ALLOC section that `copy_buf` skips (type SHT_NOBITS
or size zero) carries dynamic classifications — `copy_buf` returns
early for those, so their scanned dynamic relocations are never
written. -/
theorem c1_amended_num_dynrel_reladyn (cfg : Config) (ctx : ApplyCtx)
    (files : List (List Symbol × List InputSection))
    (hskip : ∀ f ∈ files, ∀ sec ∈ f.2,
      (sec.shdr.sh_type = SHT_NOBITS ∨ sec.shdr.sh_size = 0) →
      (scanRels cfg (sec.shdr.sh_flags &&& SHF_WRITE == 0) f.1
        sec.rels).num_dynrel = 0) :
    (∀ f ∈ files,
      (scanFile cfg f.1 f.2 0).2 =
        ((scanFile cfg f.1 f.2 0).1.map scanDynCountOf).sum) ∧
    ((files.map fun f =>
        (applyFileDynrels ctx f.1 f.2 (scanFile cfg f.1 f.2 0).1).length).sum =
      (files.map fun f => (scanFile cfg f.1 f.2 0).2).sum) := by
  constructor
  · intro f hf
    obtain ⟨h1, h2⟩ := scanFile_dynrel cfg f.1 f.2 0
    omega
  · have h : ∀ f ∈ files,
        (applyFileDynrels ctx f.1 f.2 (scanFile cfg f.1 f.2 0).1).length =
          (scanFile cfg f.1 f.2 0).2 := by
      intro f hf
      obtain ⟨h1, h2⟩ := scanFile_dynrel cfg f.1 f.2 0
      have h3 := applyFile_dynrels cfg ctx f.1 f.2 0 (hskip f hf)
      omega
    rw [List.map_congr_left h]

/-- A one-file input for the amended C1 witness: a writable SHF_ALLOC
PROGBITS section of size 8 with a single `R_X86_64_64` relocation
against an imported symbol, linked with `pie`. -/
def c1FileW : List Symbol × List InputSection :=
  ([{ is_imported := true }],
   [{ shdr := { sh_flags := 3, sh_type := SHT_PROGBITS, sh_size := 8 }
      rels := [{ r_type := 1 }] }])

/-- Witness for the amended C1 on a concrete one-file input. -/
theorem c1_amended_num_dynrel_reladyn_witness :
    c1FileW ∈ [c1FileW] ∧
    (scanFile { pie := true } c1FileW.1 c1FileW.2 0).2 =
      ((scanFile { pie := true } c1FileW.1 c1FileW.2 0).1.map
        scanDynCountOf).sum ∧
    (([c1FileW].map fun f =>
        (applyFileDynrels {} f.1 f.2
          (scanFile { pie := true } f.1 f.2 0).1).length).sum =
      ([c1FileW].map fun f => (scanFile { pie := true } f.1 f.2 0).2).sum) := by
  have hskip : ∀ f ∈ [c1FileW], ∀ sec ∈ f.2,
      (sec.shdr.sh_type = SHT_NOBITS ∨ sec.shdr.sh_size = 0) →
      (scanRels { pie := true } (sec.shdr.sh_flags &&& SHF_WRITE == 0) f.1
        sec.rels).num_dynrel = 0 := by
    intro f hf sec hsec hbad
    rw [List.mem_singleton] at hf
    subst hf
    simp only [c1FileW, List.mem_singleton] at hsec
    subst hsec
    exact absurd hbad (by decide)
  have h := c1_amended_num_dynrel_reladyn { pie := true } {} [c1FileW] hskip
  exact ⟨List.mem_singleton.mpr rfl,
    h.1 c1FileW (List.mem_singleton.mpr rfl), h.2⟩

/-! ## C7: overflow checks -/

/-- Spec side for C7: the same traversal as `applyRelocAllocRels` with
every overflow check removed, returning (writes, `.rela.dyn` records).
Used to state that range-check violations affect only error reporting,
never the stores, the emitted records, or the processing of the
remaining relocations. -/
def applyAllocUnchecked (ctx : ApplyCtx) (syms : List Symbol) :
    List Rel → List RelKind → List Bool → List FragRef →
      List Write × List DynRel
  | [], _, _, _ => ([], [])
  | rel :: rels, kinds, hf, frags =>
    let sym := syms.getD rel.r_sym defaultSym
    let loc : Int := rel.r_offset
    let ref : Option FragRef :=
      if hf.getD 0 false then some (frags.getD 0 {}) else none
    let frags2 := if hf.getD 0 false then frags.drop 1 else frags
    let S : Int := match ref with
      | some r => r.frag.addr
      | none => if sym.plt_idx = -1 then sym.addr else sym.plt_addr
    let A : Int := match ref with
      | some r => r.addend
      | none => rel.r_addend
    let P : Int := ctx.sec_addr + rel.r_offset
    let G : Int := sym.got_entry_addr - ctx.got_addr
    let GOT : Int := ctx.got_addr
    let next : Bool → List Write × List DynRel := fun skip =>
      if skip then
        applyAllocUnchecked ctx syms (rels.drop 1) (kinds.drop 2)
          (hf.drop 2) frags2
      else
        applyAllocUnchecked ctx syms rels (kinds.drop 1) (hf.drop 1) frags2
    let emit : List Write → List DynRel → Bool → List Write × List DynRel :=
      fun ws drs skip =>
        let r := next skip
        (ws ++ r.1, drs ++ r.2)
    match kinds.getD 0 .R_NONE with
    | .R_NONE => emit [] [] false
    | .R_ABS => emit (write_val rel.r_type loc (toU64 (S + A))) [] false
    | .R_ABS_DYN =>
      emit (write_val rel.r_type loc (toU64 (S + A)))
        [⟨P, R_X86_64_RELATIVE, 0, toI64 (S + A)⟩] false
    | .R_DYN => emit [] [⟨P, R_X86_64_64, sym.dynsym_idx, A⟩] false
    | .R_PC => emit (write_val rel.r_type loc (toU64 (S + A - P))) [] false
    | .R_GOT => emit (write_val rel.r_type loc (toU64 (G + A))) [] false
    | .R_GOTPC => emit (write_val rel.r_type loc (toU64 (GOT + A - P))) [] false
    | .R_GOTPCREL =>
      emit (write_val rel.r_type loc (toU64 (G + GOT + A - P))) [] false
    | .R_TLSGD =>
      emit (write_val rel.r_type loc (toU64 (sym.tlsgd_addr + A - P))) [] false
    | .R_TLSGD_RELAX_LE =>
      emit [⟨loc - 4, tlsgdInsn⟩,
            ⟨loc + 8, leBytes (toU64 (S - ctx.tls_end + A + 4)) 4⟩] [] true
    | .R_TLSLD =>
      emit (write_val rel.r_type loc (toU64 (ctx.tlsld_addr + A - P))) [] false
    | .R_TLSLD_RELAX_LE => emit [⟨loc - 3, tlsldInsn⟩] [] true
    | .R_DTPOFF =>
      emit (write_val rel.r_type loc (toU64 (S + A - ctx.tls_begin))) [] false
    | .R_TPOFF =>
      emit (write_val rel.r_type loc (toU64 (S + A - ctx.tls_end))) [] false
    | .R_GOTTPOFF =>
      emit (write_val rel.r_type loc (toU64 (sym.gottpoff_addr + A - P))) [] false
termination_by rels => rels.length
decreasing_by all_goals simp_wf <;> omega

/-- The overflow checks never influence the stores or the `.rela.dyn`
records: applying with checks produces the same writes and records as
the check-free traversal. -/
theorem applyAlloc_writes_unchecked (ctx : ApplyCtx) (asyms : List Symbol) :
    ∀ (n : Nat) (rels : List Rel) (kinds : List RelKind) (hf : List Bool)
      (frags : List FragRef), rels.length ≤ n →
      (applyRelocAllocRels ctx asyms rels kinds hf frags).writes =
          (applyAllocUnchecked ctx asyms rels kinds hf frags).1 ∧
      (applyRelocAllocRels ctx asyms rels kinds hf frags).dynrels =
          (applyAllocUnchecked ctx asyms rels kinds hf frags).2 := by
  intro n
  induction n with
  | zero =>
    intro rels kinds hf frags h
    rw [List.length_eq_zero.mp (Nat.le_zero.mp h)]
    simp [applyRelocAllocRels, applyAllocUnchecked]
  | succ m ih =>
    intro rels kinds hf frags h
    cases rels with
    | nil => simp [applyRelocAllocRels, applyAllocUnchecked]
    | cons rel rels =>
      have h1 := ih rels (kinds.drop 1) (hf.drop 1)
        (if hf.getD 0 false then frags.drop 1 else frags)
        (by simp at h; omega)
      have h2 := ih (rels.drop 1) (kinds.drop 2) (hf.drop 2)
        (if hf.getD 0 false then frags.drop 1 else frags)
        (by simp at h ⊢; omega)
      rw [applyRelocAllocRels.eq_def, applyAllocUnchecked.eq_def]
      simp only [List.getD_eq_getElem?_getD, List.drop_one] at h1 h2
      cases hk : kinds[0]?.getD RelKind.R_NONE <;>
        simp [hk, h1.1, h1.2, h2.1, h2.2]

/-- `leBytes` always produces exactly `w` bytes. -/
theorem leBytes_length : ∀ (w n : Nat), (leBytes n w).length = w := by
  intro w
  induction w with
  | zero => intro n; simp [leBytes]
  | succ v ih => intro n; simp [leBytes, ih]

/-- Decoding the little-endian encoding recovers the value modulo the
write width. -/
theorem decodeLE_leBytes : ∀ (w n : Nat),
    decodeLE (leBytes n w) = n % 2 ^ (8 * w) := by
  intro w
  induction w with
  | zero => intro n; simp [leBytes, decodeLE, Nat.mod_one]
  | succ v ih =>
    intro n
    rw [leBytes, decodeLE, ih]
    rw [show 2 ^ (8 * (v + 1)) = 256 * 2 ^ (8 * v) by
      rw [Nat.mul_succ, Nat.pow_add]; ring]
    rw [Nat.mod_mul]

/-- `toI64` on an in-range `u64` value. -/
theorem toI64_ofNat (val : Nat) (h : val < 2 ^ 64) :
    toI64 (val : Int) =
      if (val : Int) < 2 ^ 63 then (val : Int) else (val : Int) - 2 ^ 64 := by
  unfold toI64
  rw [show ((val : Int)).emod (2 ^ 64) = (val : Int) from
    Int.emod_eq_of_lt (by positivity) (by exact_mod_cast h)]

/-- C7: `apply_reloc_alloc` range-checks every applied relocation
against the psABI bounds — unsigned 8-bit for `R_X86_64_8`, signed
8-bit for PC8, unsigned 16-bit for 16, signed 16-bit for PC16,
unsigned 32-bit for 32, signed 32-bit for the signed 32-bit kinds,
and no check for the 64-bit kinds and NONE — while a violation only
reports an error: the store still happens, truncated to the write
width, and the remaining relocations are still processed (the writes
and `.rela.dyn` records equal those of the check-free traversal). -/
theorem c7_overflow_checks (ctx : ApplyCtx) (asyms : List Symbol) :
    (∀ val : Nat, val < 2 ^ 64 →
      ((overflow_check R_X86_64_8 val = false ↔ val < 2 ^ 8) ∧
       (overflow_check R_X86_64_PC8 val = false ↔
          -(2 ^ 7 : Int) ≤ toI64 val ∧ toI64 val < 2 ^ 7) ∧
       (overflow_check R_X86_64_16 val = false ↔ val < 2 ^ 16) ∧
       (overflow_check R_X86_64_PC16 val = false ↔
          -(2 ^ 15 : Int) ≤ toI64 val ∧ toI64 val < 2 ^ 15) ∧
       (overflow_check R_X86_64_32 val = false ↔ val < 2 ^ 32) ∧
       (∀ t ∈ [R_X86_64_32S, R_X86_64_PC32, R_X86_64_GOT32, R_X86_64_GOTPC32,
            R_X86_64_GOTPCREL, R_X86_64_GOTPCRELX, R_X86_64_REX_GOTPCRELX,
            R_X86_64_PLT32, R_X86_64_TLSGD, R_X86_64_TLSLD, R_X86_64_TPOFF32,
            R_X86_64_DTPOFF32, R_X86_64_GOTTPOFF],
          (overflow_check t val = false ↔
            -(2 ^ 31 : Int) ≤ toI64 val ∧ toI64 val < 2 ^ 31)))) ∧
    (∀ t ∈ [R_X86_64_NONE, R_X86_64_64, R_X86_64_PC64, R_X86_64_TPOFF64,
        R_X86_64_DTPOFF64], ∀ val : Nat, overflow_check t val = false) ∧
    (∀ (r_type : Nat) (loc : Int) (val : Nat), ∀ wr ∈ write_val r_type loc val,
       decodeLE wr.bytes = val % 2 ^ (8 * wr.bytes.length)) ∧
    (∀ (rels : List Rel) (kinds : List RelKind) (hf : List Bool)
       (frags : List FragRef),
      (applyRelocAllocRels ctx asyms rels kinds hf frags).writes =
          (applyAllocUnchecked ctx asyms rels kinds hf frags).1 ∧
      (applyRelocAllocRels ctx asyms rels kinds hf frags).dynrels =
          (applyAllocUnchecked ctx asyms rels kinds hf frags).2) := by
  refine ⟨fun val hval => ⟨?_, ?_, ?_, ?_, ?_, ?_⟩, ?_, ?_, ?_⟩
  · simp [overflow_check]
    omega
  · norm_num [overflow_check, R_X86_64_PC8, R_X86_64_8, sextU64,
      toI64_ofNat val hval]
    split_ifs <;> omega
  · simp [overflow_check, R_X86_64_16, R_X86_64_8, R_X86_64_PC8]
    omega
  · norm_num [overflow_check, R_X86_64_PC16, R_X86_64_8, R_X86_64_PC8,
      R_X86_64_16, sextU64, toI64_ofNat val hval]
    split_ifs <;> omega
  · simp [overflow_check, R_X86_64_32, R_X86_64_8, R_X86_64_PC8,
      R_X86_64_16, R_X86_64_PC16]
    omega
  · intro t ht
    fin_cases ht <;>
    · norm_num [overflow_check, R_X86_64_8, R_X86_64_PC8, R_X86_64_16,
        R_X86_64_PC16, R_X86_64_32, R_X86_64_32S, R_X86_64_PC32,
        R_X86_64_GOT32, R_X86_64_GOTPC32, R_X86_64_GOTPCREL,
        R_X86_64_GOTPCRELX, R_X86_64_REX_GOTPCRELX, R_X86_64_PLT32,
        R_X86_64_TLSGD, R_X86_64_TLSLD, R_X86_64_TPOFF32, R_X86_64_DTPOFF32,
        R_X86_64_GOTTPOFF, sextU64, toI64_ofNat val hval]
      split_ifs <;> omega
  · intro t ht val
    fin_cases ht <;>
      simp [overflow_check, R_X86_64_NONE, R_X86_64_8, R_X86_64_PC8,
        R_X86_64_16, R_X86_64_PC16, R_X86_64_32, R_X86_64_32S, R_X86_64_PC32,
        R_X86_64_GOT32, R_X86_64_GOTPC32, R_X86_64_GOTPCREL,
        R_X86_64_GOTPCRELX, R_X86_64_REX_GOTPCRELX, R_X86_64_PLT32,
        R_X86_64_TLSGD, R_X86_64_TLSLD, R_X86_64_TPOFF32, R_X86_64_DTPOFF32,
        R_X86_64_GOTTPOFF, R_X86_64_64, R_X86_64_PC64, R_X86_64_TPOFF64,
        R_X86_64_DTPOFF64]
  · intro r_type loc val wr hwr
    unfold write_val at hwr
    split_ifs at hwr <;> simp at hwr <;>
      simp [hwr, leBytes_length, decodeLE_leBytes]
  · intro rels kinds hf frags
    exact applyAlloc_writes_unchecked ctx asyms rels.length rels kinds hf
      frags le_rfl

/-- Witness for C7: the unsigned 8-bit bound at the value 255, and the
no-check guarantee for `R_X86_64_64`. -/
theorem c7_overflow_checks_witness :
    ((255 : Nat) < 2 ^ 64 ∧
      R_X86_64_64 ∈ [R_X86_64_NONE, R_X86_64_64, R_X86_64_PC64,
        R_X86_64_TPOFF64, R_X86_64_DTPOFF64]) ∧
    (overflow_check R_X86_64_8 255 = false ↔ (255 : Nat) < 2 ^ 8) ∧
    overflow_check R_X86_64_64 (2 ^ 64) = false :=
  ⟨⟨by norm_num, by simp⟩,
    ((c7_overflow_checks {} []).1 255 (by norm_num)).1,
    (c7_overflow_checks {} []).2.1 R_X86_64_64 (by simp) (2 ^ 64)⟩

/-! ## C4: fixed-point propagation -/

/-- One round preserves the digest-array length. -/
theorem icfStep_length (H : List Nat → Nat) (ei es : List Nat) (n : Nat)
    (d : List Nat) : (icfStep H ei es n d).length = d.length := by
  simp [icfStep]

/-- Reading one entry of the new digest array. -/
theorem icfStep_getD (H : List Nat → Nat) (ei es : List Nat) (n : Nat)
    (d : List Nat) (i : Nat) (h : i < d.length) :
    (icfStep H ei es n d).getD i 0 =
      if i < n then
        H (d.getD i 0 :: (succsOf ei es n i).map fun j => d.getD j 0)
      else d.getD i 0 := by
  simp [icfStep, List.getD_eq_getElem?_getD, List.getElem?_map,
    List.getElem?_range h]

/-- `num_classes` counts at most `n - 1` adjacent pairs. -/
theorem numClasses_le (n : Nat) (d : List Nat) : numClasses n d ≤ n - 1 := by
  calc numClasses n d ≤ (List.range (n - 1)).length := List.countP_le_length _
  _ = n - 1 := List.length_range _

/-- Monotonicity: a propagation round never merges two adjacent
classes — with an injective hash, adjacent digests that differ keep
differing, so `num_classes` never decreases. -/
theorem numClasses_mono (H : List Nat → Nat) (hH : Function.Injective H)
    (ei es : List Nat) (n : Nat) (d : List Nat) (hd : n ≤ d.length) :
    numClasses n d ≤ numClasses n (icfStep H ei es n d) := by
  unfold numClasses
  apply List.countP_mono_left
  intro i hi hdiff
  have hi' : i < n - 1 := List.mem_range.mp hi
  have h1 : i < d.length := by omega
  have h2 : i + 1 < d.length := by omega
  rw [icfStep_getD H ei es n d i h1, icfStep_getD H ei es n d (i + 1) h2,
    if_pos (by omega : i < n), if_pos (by omega : i + 1 < n)]
  simp only [bne_iff_ne, ne_eq] at hdiff ⊢
  intro hEq
  exact hdiff (by simpa [← List.getD_eq_getElem?_getD] using
    (List.cons.injEq _ _ _ _ ▸ hH hEq).1)

/-- The propagation loop converges within `n + 1` rounds: each round
that does not exit strictly increases `num_classes`, which is bounded
by `n - 1`. -/
theorem icfLoop_terminates (H : List Nat → Nat) (hH : Function.Injective H)
    (ei es : List Nat) (n : Nat) :
    ∀ (fuel : Nat) (d : List Nat), n ≤ d.length →
      n + 1 ≤ numClasses n d + fuel →
      (icfLoop H ei es n fuel d (numClasses n d)).isSome := by
  intro fuel
  induction fuel with
  | zero =>
    intro d hd hfuel
    have := numClasses_le n d
    omega
  | succ m ih =>
    intro d hd hfuel
    rw [icfLoop]
    by_cases hc : numClasses n (icfStep H ei es n d) = numClasses n d
    · simp [hc]
    · rw [if_neg hc]
      apply ih
      · rw [icfStep_length]; exact hd
      · have hmono := numClasses_mono H hH ei es n d hd
        omega

/-- C4: in the fixed-point propagation loop, `num_classes` never
decreases from one round to the next (assuming the truncated hash is
collision-free, i.e. injective on the absorbed digest lists), and the
loop terminates: it exits, within `n + 1` rounds, the first time a
round leaves `num_classes` unchanged. -/
theorem c4_icf_propagation (H : List Nat → Nat)
    (hH : Function.Injective H) (ei es d : List Nat) (n : Nat)
    (hn : n ≤ d.length) :
    numClasses n d ≤ numClasses n (icfStep H ei es n d) ∧
    (icfLoop H ei es n (n + 1) d (numClasses n d)).isSome :=
  ⟨numClasses_mono H hH ei es n d hn,
    icfLoop_terminates H hH ei es n (n + 1) d hn (by omega)⟩

/-- Witness for C4 with the injective encoding of digest lists as the
hash, on a concrete two-node graph. -/
theorem c4_icf_propagation_witness :
    ((2 : Nat) ≤ ([5, 5] : List Nat).length ∧
      Function.Injective (Encodable.encode (α := List Nat))) ∧
    (numClasses 2 [5, 5] ≤
        numClasses 2 (icfStep Encodable.encode [0, 1] [1, 0] 2 [5, 5]) ∧
      (icfLoop Encodable.encode [0, 1] [1, 0] 2 3 [5, 5]
        (numClasses 2 [5, 5])).isSome) :=
  ⟨⟨by decide, Encodable.encode_injective⟩,
    c4_icf_propagation Encodable.encode Encodable.encode_injective
      [0, 1] [1, 0] [5, 5] 2 (by decide)⟩

/-! ## C3: initial digest layout -/

/-- The absorbed fields of `hash_symbol` match the spec's symbol
digest. -/
theorem hash_symbol_eq_spec (sym : Symbol) :
    hash_symbol sym = specSymbolDigest sym := by
  unfold hash_symbol specSymbolDigest
  cases sym.frag <;> cases h : sym.has_input_section <;>
    simp [hash_i64, hash_string, specString, h]

/-- The absorbed fields of one FDE match the spec's FDE layout. -/
theorem hashFde_eq_spec (fde : FdeRecord) :
    hashFde fde = specFdeChunk fde := by
  unfold hashFde specFdeChunk
  rw [show ((fde.rels.drop 1).map fun rel =>
        hash_symbol rel.sym ++ hash_i64 rel.type ++ hash_i64 rel.offset ++
          hash_i64 rel.addend) =
      (fde.rels.drop 1).map fun r =>
        specSymbolDigest r.sym ++ [.num r.type, .num r.offset, .num r.addend]
    from List.map_congr_left fun x _ => by
      simp [hash_symbol_eq_spec, hash_i64]]
  simp [hash_string, specString, hash_i64]

/-- The lockstep fragment-reference stream of `compute_digest` absorbs
the same fields as the spec's per-relocation layout over the zipped
option stream. -/
theorem hashRels_eq_spec (syms : List Symbol) :
    ∀ (rels : List Rel) (hf : List Bool) (frags : List FragRef),
      hf.length = rels.length →
      hashRels syms rels hf frags =
        ((rels.zip (fragOpts hf frags)).map (specRelChunk syms)).flatten := by
  intro rels
  induction rels with
  | nil => intro hf frags h; simp [hashRels]
  | cons rel rels ih =>
    intro hf frags h
    cases hf with
    | nil => simp at h
    | cons b hf =>
      cases b
      · simp [hashRels, fragOpts, specRelChunk, hash_i64, hash_string,
          hash_symbol_eq_spec, ih hf frags (by simpa using h)]
      · simp [hashRels, fragOpts, specRelChunk, specString, hash_i64,
          hash_string, ih hf frags.tail (by simpa using h)]

/-- C3: for every section whose `has_fragments` vector is parallel to
its relocations, `compute_digest` absorbs fields in the exact order of
§4.4 — contents length-prefixed, `sh_flags`, the two counts, the FDE
records (CIE offset excluded, first FDE relocation skipped), then per
relocation `r_offset`/`r_type`/`r_addend` followed by tag 1 with the
fragment addend and bytes for fragment targets and by the symbol
digest otherwise. -/
theorem c3_compute_digest_layout (syms : List Symbol) (isec : InputSection)
    (hlen : isec.has_fragments.length = isec.rels.length) :
    compute_digest syms isec = specDigest syms isec := by
  unfold compute_digest specDigest
  rw [hashRels_eq_spec syms isec.rels isec.has_fragments isec.rel_fragments
    hlen]
  rw [show isec.fdes.map hashFde = isec.fdes.map specFdeChunk from
    List.map_congr_left fun x _ => hashFde_eq_spec x]
  simp [hash_i64, hash_string, specString]

/-- A concrete section for the C3 witness: one FDE with two
relocations, one fragment-target relocation and one symbol-target
relocation. -/
def c3SecW : InputSection :=
  { contents := [1, 2, 3]
    shdr := { sh_flags := 6 }
    fdes := [{ contents := [9, 9, 9, 9, 8, 8, 8, 8, 7, 7]
               rels := [{ offset := 0 }, { offset := 8, addend := 5 }] }]
    rels := [{ r_offset := 0, r_type := 1, r_sym := 0 },
             { r_offset := 8, r_type := 2, r_sym := 0 }]
    has_fragments := [true, false]
    rel_fragments := [{ frag := { data := [4, 4] }, addend := 3 }] }

/-- Witness for C3 at `c3SecW`. -/
theorem c3_compute_digest_layout_witness :
    c3SecW.has_fragments.length = c3SecW.rels.length ∧
    compute_digest [{ value := 7 }] c3SecW = specDigest [{ value := 7 }] c3SecW :=
  ⟨rfl, c3_compute_digest_layout [{ value := 7 }] c3SecW rfl⟩

/-! ## C5: merge phase -/

/-- The inner `while` never moves backwards. -/
theorem runEnd_ge (ds : List Nat) (dig : Nat) : ∀ j, j ≤ runEnd ds dig j := by
  intro j
  induction j using runEnd.induct ds dig with
  | case1 j h ih => rw [runEnd.eq_def, if_pos h]; omega
  | case2 j h => rw [runEnd.eq_def, if_neg h]

/-- Every index passed over by the inner `while` carries the run's
digest and is in range. -/
theorem runEnd_all (ds : List Nat) (dig : Nat) :
    ∀ j, ∀ m, j ≤ m → m < runEnd ds dig j →
      m < ds.length ∧ ds.getD m 0 = dig := by
  intro j
  induction j using runEnd.induct ds dig with
  | case1 j h ih =>
    intro m h1 h2
    rw [runEnd.eq_def, if_pos h] at h2
    by_cases hm : m = j
    · subst hm; exact h
    · exact ih m (by omega) h2
  | case2 j h =>
    intro m h1 h2
    rw [runEnd.eq_def, if_neg h] at h2
    omega

/-- The inner `while` stops at the first index that breaks the run. -/
theorem runEnd_stop (ds : List Nat) (dig : Nat) :
    ∀ j, ¬(runEnd ds dig j < ds.length ∧
      ds.getD (runEnd ds dig j) 0 = dig) := by
  intro j
  induction j using runEnd.induct ds dig with
  | case1 j h ih => rw [runEnd.eq_def, if_pos h]; exact ih
  | case2 j h => rw [runEnd.eq_def, if_neg h]; exact h

/-- Conversely, an in-range index whose whole prefix carries the run's
digest has not been passed when the `while` stops. -/
theorem lt_runEnd (ds : List Nat) (dig : Nat) (j j' : Nat)
    (h1 : j ≤ j') (h2 : j' < ds.length)
    (h3 : ∀ m, j ≤ m → m ≤ j' → ds.getD m 0 = dig) :
    j' < runEnd ds dig j := by
  by_contra hc
  push_neg at hc
  have hge := runEnd_ge ds dig j
  exact runEnd_stop ds dig j ⟨by omega, h3 _ hge (by omega)⟩

/-- The run start of `j` is at most `j`. -/
theorem runStart_le (ds : List Nat) : ∀ j, runStart ds j ≤ j := by
  intro j
  induction j with
  | zero => simp [runStart]
  | succ m ih => rw [runStart]; split <;> omega

/-- The run start really starts a run. -/
theorem runStart_isStart (ds : List Nat) :
    ∀ j, isRunStart ds (runStart ds j) = true := by
  intro j
  induction j with
  | zero => simp [runStart, isRunStart]
  | succ m ih =>
    rw [runStart]
    split
    · exact ih
    · rename_i h
      simp only [List.getD_eq_getElem?_getD] at h
      simp [isRunStart, bne_iff_ne, h]

/-- Between the run start of `j` and `j` all consecutive digests are
equal. -/
theorem runStart_consec (ds : List Nat) :
    ∀ j m, runStart ds j ≤ m → m < j → ds.getD m 0 = ds.getD (m + 1) 0 := by
  intro j
  induction j with
  | zero => intro m _ h; omega
  | succ v ih =>
    intro m h1 h2
    by_cases heq : ds.getD v 0 = ds.getD (v + 1) 0
    · rw [runStart, if_pos heq] at h1
      by_cases hm : m = v
      · subst hm; exact heq
      · exact ih m h1 (by omega)
    · rw [runStart, if_neg heq] at h1
      omega

/-- The run start is the unique run start reachable from `j` through
consecutive equal digests. -/
theorem runStart_unique (ds : List Nat) :
    ∀ j i, isRunStart ds i = true → i ≤ j →
      (∀ m, i ≤ m → m < j → ds.getD m 0 = ds.getD (m + 1) 0) →
      runStart ds j = i := by
  intro j
  induction j with
  | zero =>
    intro i _ hle _
    have : i = 0 := by omega
    simp [runStart, this]
  | succ v ih =>
    intro i hstart hle hcons
    by_cases heq : ds.getD v 0 = ds.getD (v + 1) 0
    · rw [runStart, if_pos heq]
      apply ih i hstart ?_ fun m hm1 hm2 => hcons m hm1 (by omega)
      rcases Nat.lt_or_ge i (v + 1) with h | h
      · omega
      · have hi : i = v + 1 := by omega
        subst hi
        have heq' := heq
        simp only [List.getD_eq_getElem?_getD] at heq'
        simp [isRunStart, bne_iff_ne, heq'] at hstart
    · rw [runStart, if_neg heq]
      rcases Nat.lt_or_ge i (v + 1) with h | h
      · exact absurd (hcons v (by omega) (by omega)) heq
      · omega

/-- All members of `j`'s run carry the digest of the run start. -/
theorem consec_all (ds : List Nat) (i j : Nat)
    (hcons : ∀ m, i ≤ m → m < j → ds.getD m 0 = ds.getD (m + 1) 0) :
    ∀ m, i ≤ m → m ≤ j → ds.getD m 0 = ds.getD i 0 := by
  intro m
  induction m with
  | zero =>
    intro h1 _
    have : i = 0 := by omega
    rw [this]
  | succ v ih =>
    intro h1 h2
    by_cases hv : i ≤ v
    · rw [← hcons v hv (by omega)]
      exact ih hv (by omega)
    · have : i = v + 1 := by omega
      rw [this]

/-- Membership in the merge loop's assignment list, in terms of run
starts and the inner `while` bound. -/
theorem pair_mem (ds : List Nat) (j i : Nat) :
    (j, i) ∈ mergeAssign ds ↔
      i < ds.length - 1 ∧ isRunStart ds i = true ∧ i + 1 ≤ j ∧
        j < runEnd ds (ds.getD i 0) (i + 1) := by
  unfold mergeAssign
  simp only [List.mem_flatMap, List.mem_range]
  constructor
  · rintro ⟨i', hi', hmem⟩
    by_cases hstart : isRunStart ds i'
    · rw [if_pos hstart] at hmem
      simp only [List.mem_map] at hmem
      obtain ⟨j', hj', heq⟩ := hmem
      injection heq with heq1 heq2
      subst heq1; subst heq2
      obtain ⟨k, hk, hjk⟩ := List.mem_range'.mp hj'
      exact ⟨hi', hstart, by omega, by omega⟩
    · rw [if_neg hstart] at hmem
      simp at hmem
  · rintro ⟨h1, h2, h3, h4⟩
    refine ⟨i, h1, ?_⟩
    rw [if_pos h2]
    simp only [List.mem_map]
    exact ⟨j, List.mem_range'.mpr ⟨j - (i + 1), by omega, by omega⟩, rfl⟩

/-- The key characterization: the merge loop assigns a leader exactly
to the non-first members of each maximal run, and the assigned leader
is the run's first member. -/
theorem pair_char (ds : List Nat) (j i : Nat) :
    (j, i) ∈ mergeAssign ds ↔
      j < ds.length ∧ isRunStart ds j = false ∧ i = runStart ds j := by
  rw [pair_mem]
  constructor
  · rintro ⟨h1, h2, h3, h4⟩
    have hAll : ∀ m, i + 1 ≤ m → m ≤ j →
        m < ds.length ∧ ds.getD m 0 = ds.getD i 0 :=
      fun m hm1 hm2 => runEnd_all ds (ds.getD i 0) (i + 1) m hm1 (by omega)
    have hjlen : j < ds.length := (hAll j h3 le_rfl).1
    have hconsec : ∀ m, i ≤ m → m < j →
        ds.getD m 0 = ds.getD (m + 1) 0 := by
      intro m hm1 hm2
      by_cases hmi : m = i
      · subst hmi; exact ((hAll (m + 1) (by omega) (by omega)).2).symm
      · rw [(hAll m (by omega) (by omega)).2,
          (hAll (m + 1) (by omega) (by omega)).2]
    have hprev : ds.getD (j - 1) 0 = ds.getD j 0 := by
      have := hconsec (j - 1) (by omega) (by omega)
      have hj1 : j - 1 + 1 = j := by omega
      rwa [hj1] at this
    have hstart_j : isRunStart ds j = false := by
      simp only [isRunStart, Bool.or_eq_false_iff, beq_eq_false_iff_ne,
        bne_eq_false_iff_eq]
      exact ⟨by omega, hprev⟩
    exact ⟨hjlen, hstart_j, (runStart_unique ds j i h2 (by omega) hconsec).symm⟩
  · rintro ⟨h1, h2, rfl⟩
    have hle := runStart_le ds j
    have hlt : runStart ds j < j := by
      rcases Nat.lt_or_ge (runStart ds j) j with h | h
      · exact h
      · have heq : runStart ds j = j := by omega
        have := runStart_isStart ds j
        rw [heq] at this
        rw [this] at h2
        exact absurd h2 (by simp)
    refine ⟨by omega, runStart_isStart ds j, by omega, ?_⟩
    apply lt_runEnd ds _ (runStart ds j + 1) j (by omega) h1
    intro m hm1 hm2
    exact consec_all ds (runStart ds j) j
      (fun m' hm'1 hm'2 => runStart_consec ds j m' hm'1 hm'2) m (by omega) hm2

/-- The `leader` field after the merge loop, characterized through the
assignment list. -/
theorem leaderPos_eq_some (ds : List Nat) (j i : Nat) :
    leaderPos ds j = some i ↔ (j, i) ∈ mergeAssign ds := by
  unfold leaderPos
  constructor
  · intro h
    obtain ⟨p, hp, hmap⟩ := Option.map_eq_some'.mp h
    have hmem := List.mem_of_find?_eq_some hp
    have hpj : p.1 = j := by simpa using List.find?_some hp
    have hpeq : p = (j, i) := by
      cases p
      simp_all
    rwa [hpeq] at hmem
  · intro hmem
    have hsome : ((mergeAssign ds).find? fun p => p.1 == j).isSome :=
      List.find?_isSome.mpr ⟨(j, i), hmem, by simp⟩
    obtain ⟨q, hq⟩ := Option.isSome_iff_exists.mp hsome
    have hqmem := List.mem_of_find?_eq_some hq
    have hqj : q.1 = j := by simpa using List.find?_some hq
    have hq2 := (pair_char ds j q.2).mp (by
      have : (j, q.2) = q := by cases q; simp [← hqj]
      rwa [this])
    have hi2 := (pair_char ds j i).mp hmem
    rw [hq]
    simp only [Option.map_some']
    rw [hq2.2.2, ← hi2.2.2]

/-- A run start is never assigned a leader. -/
theorem leaderPos_none_of_start (ds : List Nat) (i : Nat)
    (h : isRunStart ds i = true) : leaderPos ds i = none := by
  cases hl : leaderPos ds i with
  | none => rfl
  | some l =>
    have := ((pair_char ds i l).mp ((leaderPos_eq_some ds i l).mp hl)).2.1
    rw [h] at this
    exact absurd this (by simp)

/-- C5: after the ICF merge phase a leader never itself has a leader;
within each maximal run of equal final digests (in the sorted order)
the first element is the leader and every other element's leader field
points to it; and after the symbol rewriting pass every symbol with a
non-null input section points to a section whose leader is null. -/
theorem c5_icf_merge (ds : List Nat) :
    (∀ j i, leaderPos ds j = some i → leaderPos ds i = none) ∧
    (∀ j, j < ds.length →
      (isRunStart ds j = true → leaderPos ds j = none) ∧
      (isRunStart ds j = false →
        leaderPos ds j = some (runStart ds j) ∧
        leaderPos ds (runStart ds j) = none)) ∧
    (∀ (s : Option Nat) (sec : Nat), rewriteSym ds s = some sec →
      leaderPos ds sec = none) := by
  have key : ∀ j i, leaderPos ds j = some i → leaderPos ds i = none := by
    intro j i h
    have hc := (pair_char ds j i).mp ((leaderPos_eq_some ds j i).mp h)
    rw [hc.2.2]
    exact leaderPos_none_of_start ds _ (runStart_isStart ds j)
  refine ⟨key, ?_, ?_⟩
  · intro j hj
    refine ⟨leaderPos_none_of_start ds j, fun hfalse => ⟨?_, ?_⟩⟩
    · exact (leaderPos_eq_some ds j _).mpr
        ((pair_char ds j _).mpr ⟨hj, hfalse, rfl⟩)
    · exact leaderPos_none_of_start ds _ (runStart_isStart ds j)
  · intro s sec h
    match s with
    | none => simp [rewriteSym] at h
    | some sec0 =>
      cases hl : leaderPos ds sec0 with
      | some l =>
        simp [rewriteSym, hl] at h
        subst h
        exact key sec0 _ hl
      | none =>
        simp [rewriteSym, hl] at h
        subst h
        exact hl

/-- Witness for C5 at the digest list `[5, 5, 7]`, position 1. -/
theorem c5_icf_merge_witness :
    ((1 : Nat) < ([5, 5, 7] : List Nat).length ∧
      isRunStart [5, 5, 7] 1 = false) ∧
    (leaderPos [5, 5, 7] 1 = some (runStart [5, 5, 7] 1) ∧
      leaderPos [5, 5, 7] (runStart [5, 5, 7] 1) = none) :=
  ⟨⟨by decide, by decide⟩,
    ((c5_icf_merge [5, 5, 7]).2.1 1 (by decide)).2 (by decide)⟩

end Mold
